import Mathlib

/-!
Verification of the task-scheduling and worker-pool orchestration subsystem
(modules task_scheduler, resource_manager, orchestrator of the source tree).

The Python source is embedded shallowly:
  - dataclasses become structures with the same field names;
  - floating-point quantities (times, scores, loads) are modelled as exact
    rationals;
  - the md5-based task-id hash and the regular-expression matchers that
    classify file paths and extract import statements are abstracted as
    opaque function parameters carried in the TaskScheduler structure
    (the algorithms under verification treat both as black boxes);
  - the while-loop of the priority/dependency sort is embedded with an
    explicit fuel argument; fuel equal to the number of remaining tasks
    always suffices because every iteration removes at least one task,
    which is proved below (the permutation theorem).
-/

/-! ## Generic helpers (Python string and list primitives) -/

/-- Count of non-overlapping occurrences of the two-character pattern c1 c2,
as computed by the Python str.count method for a two-character needle. -/
def countPairs (c1 c2 : Char) : List Char → Nat
  | [] => 0
  | [_] => 0
  | a :: b :: rest =>
    if a == c1 && b == c2 then countPairs c1 c2 rest + 1
    else countPairs c1 c2 (b :: rest)

/-- Python substring test: needle occurs contiguously in hay. -/
def charsContain (hay needle : List Char) : Bool :=
  if needle.isPrefixOf hay then true
  else
    match hay with
    | [] => false
    | _ :: t => charsContain t needle

/-- Python min over a nonempty list with a numeric key: the first element
attaining the minimal key. -/
def pyMinBy {α : Type} (f : α → Nat) (x : α) (xs : List α) : α :=
  xs.foldl (fun best y => if f y < f best then y else best) x

/-! ## Task scheduler data model (task_scheduler module) -/

/-- Enum TaskPriority of the source. -/
inductive TaskPriority
  | critical
  | high
  | medium
  | low
deriving DecidableEq

/-- Numeric value of a TaskPriority, as in the source enum. -/
def TaskPriority.value : TaskPriority → Nat
  | .critical => 1
  | .high => 2
  | .medium => 3
  | .low => 4

/-- Enum TaskComplexity of the source. -/
inductive TaskComplexity
  | simple
  | moderate
  | complex
deriving DecidableEq

/-- Numeric value of a TaskComplexity, as in the source enum. -/
def TaskComplexity.value : TaskComplexity → Nat
  | .simple => 1
  | .moderate => 2
  | .complex => 3

/-- Dataclass AgentContext (fields used by the scheduler and orchestrator). -/
structure AgentContext where
  file_path : String
  file_content : String
  changed_lines : List Nat
  diff_content : String
  language : String
  mr_title : String
  mr_description : String
deriving DecidableEq

/-- Dataclass AnalysisTask. The created_at timestamp and the unused
agent_requirements field are omitted: no algorithm reads them. -/
structure AnalysisTask where
  task_id : String
  file_path : String
  context : AgentContext
  priority : TaskPriority
  complexity : TaskComplexity
  estimated_time : Nat
  dependencies : List String := []
deriving DecidableEq

/-- Dataclass TaskBatch. -/
structure TaskBatch where
  batch_id : String
  tasks : List AnalysisTask
  estimated_total_time : Nat
  max_parallel_agents : Nat
deriving DecidableEq

/-- One raw MR change descriptor, a dict in the source; absent keys are
modelled with Option / defaults matching dict.get defaults. -/
structure MRChange where
  new_path : Option String := none
  old_path : Option String := none
  deleted_file : Bool := false
  diff : String := ""
deriving DecidableEq

/-- MR metadata dict: the keys read by the scheduler, with the defaults
used by dict.get in the source. -/
structure MRInfo where
  iid : Nat := 0
  title : String := ""
  description : String := ""
deriving DecidableEq

/-- The TaskScheduler class: its configuration values, plus the regex rule
sets and the md5 hash abstracted as opaque functions (each path pattern
becomes a Boolean matcher, each import pattern becomes its findall
function). -/
structure TaskScheduler where
  max_parallel_tasks : Nat := 4
  max_analysis_time_per_file : Nat := 600
  critical_patterns : List (String → Bool) := []
  high_patterns : List (String → Bool) := []
  low_patterns : List (String → Bool) := []
  import_patterns : List (String → List String) := []
  md5hex : String → String := fun s => s

/-! ## Task scheduler operations -/

/-- Method generate_task_id: task_ prefix plus the first eight characters
of the hex digest of iid_path. -/
def generate_task_id (sch : TaskScheduler) (file_path : String) (mr_iid : Nat) : String :=
  "task_" ++ (sch.md5hex (toString mr_iid ++ "_" ++ file_path)).take 8

/-- Method determine_task_priority: first matching rule set wins, default
is medium. -/
def determine_task_priority (sch : TaskScheduler) (file_path : String) : TaskPriority :=
  if sch.critical_patterns.any (fun pat => pat file_path) then .critical
  else if sch.high_patterns.any (fun pat => pat file_path) then .high
  else if sch.low_patterns.any (fun pat => pat file_path) then .low
  else .medium

/-- Python expression new_path or old_path followed by the falsy test of
the loop: returns the chosen nonempty path, none when the descriptor
yields no usable path. -/
def chooseFilePath (c : MRChange) : Option String :=
  let fp := match c.new_path with
    | some s => if s = "" then c.old_path else some s
    | none => c.old_path
  match fp with
  | some s => if s = "" then none else some s
  | none => none

/-- The loop body of create_analysis_tasks: skip deleted descriptors and
descriptors without a usable path; otherwise append a task with a fresh
context, the classified priority, moderate complexity and a 300 second
initial estimate. -/
def createTaskStep (sch : TaskScheduler) (mr_info : MRInfo)
    (tasks : List AnalysisTask) (c : MRChange) : List AnalysisTask :=
  if c.deleted_file then tasks
  else
    match chooseFilePath c with
    | none => tasks
    | some fp =>
      tasks ++ [{
        task_id := generate_task_id sch fp mr_info.iid
        file_path := fp
        context := {
          file_path := fp
          file_content := ""
          changed_lines := []
          diff_content := c.diff
          language := ""
          mr_title := mr_info.title
          mr_description := mr_info.description }
        priority := determine_task_priority sch fp
        complexity := .moderate
        estimated_time := 300 }]

/-- Method create_analysis_tasks: fold the creation step over the change
descriptors. -/
def create_analysis_tasks (sch : TaskScheduler) (mr_changes : List MRChange)
    (mr_info : MRInfo) : List AnalysisTask :=
  mr_changes.foldl (createTaskStep sch mr_info) []

/-- Method analyze_task_dependencies: for every import-pattern match in the
diff that is a substring of the file path of another task, record that
task id as a dependency (deduplicated, discovery order). -/
def analyze_task_dependencies (sch : TaskScheduler) (tasks : List AnalysisTask) :
    List AnalysisTask :=
  tasks.map (fun task =>
    { task with dependencies :=
        if task.context.diff_content.isEmpty then []
        else
          sch.import_patterns.foldl (fun deps pat =>
            (pat task.context.diff_content).foldl (fun deps m =>
              tasks.foldl (fun deps other =>
                if charsContain other.file_path.data m.data &&
                    other.task_id != task.task_id &&
                    !(deps.contains other.task_id)
                then deps ++ [other.task_id] else deps) deps) deps) [] })

/-- The list of keywords the complexity heuristic looks for. -/
def complexKeywords : List String :=
  ["if", "for", "while", "try", "catch", "class", "function", "async"]

/-- The code-file suffixes the complexity heuristic recognizes. -/
def codeSuffixes : List String :=
  [".py", ".js", ".ts", ".java", ".cpp", ".go"]

/-- Method calculate_file_complexity: a rational score from change volume,
diff size, file type and presence of control-flow keywords, mapped to the
complexity enum. -/
def calculate_file_complexity (task : AnalysisTask) : TaskComplexity :=
  let diff := task.context.diff_content
  let diff_size := diff.length
  let added_lines := countPairs ('\n') ('+') diff.data
  let removed_lines := countPairs ('\n') ('-') diff.data
  let total_changes := added_lines + removed_lines
  let s1 : ℚ :=
    if total_changes > 100 then 3 else if total_changes > 50 then 2
    else if total_changes > 10 then 1 else 0
  let s2 : ℚ := s1 + (if diff_size > 10000 then 2 else if diff_size > 5000 then 1 else 0)
  let s3 : ℚ := s2 +
    (if codeSuffixes.any (fun suf => suf.data.isSuffixOf task.file_path.data) then 1 else 0)
  let s4 : ℚ := s3 + complexKeywords.foldl (fun sc kw =>
    if charsContain (diff.data.map Char.toLower) kw.data then sc + 0.5 else sc) 0
  if s4 ≥ 5 then .complex else if s4 ≥ 2 then .moderate else .simple

/-- Method estimate_analysis_time: base time by complexity, scaled for
critical and high priority, capped at the per-file maximum. The 1.5 and
1.2 float factors are exact on the three possible base values. -/
def estimate_analysis_time (sch : TaskScheduler) (task : AnalysisTask) : Nat :=
  let base : Nat := match task.complexity with
    | .simple => 120
    | .moderate => 300
    | .complex => 600
  let estimated : Nat :=
    if task.priority = .critical then base * 3 / 2
    else if task.priority = .high then base * 6 / 5
    else base
  min estimated sch.max_analysis_time_per_file

/-- Method calculate_task_metrics: set the complexity, then the estimate
computed from the updated task. -/
def calculate_task_metrics (sch : TaskScheduler) (tasks : List AnalysisTask) :
    List AnalysisTask :=
  tasks.map (fun task =>
    let task1 := { task with complexity := calculate_file_complexity task }
    { task1 with estimated_time := estimate_analysis_time sch task1 })

/-- The tasks whose dependencies are all outside the remaining set (the
ready set of one loop iteration of the sort). -/
def readyTasks (remaining : List AnalysisTask) : List AnalysisTask :=
  remaining.filter (fun task =>
    task.dependencies.all (fun dep_id =>
      !(remaining.any (fun t => t.task_id == dep_id))))

/-- The sort key order of the ready list: ascending by the pair of
priority value and complexity value (the Python tuple key). -/
def taskSortLe (a b : AnalysisTask) : Prop :=
  a.priority.value < b.priority.value ∨
    (a.priority.value = b.priority.value ∧ a.complexity.value ≤ b.complexity.value)

instance : DecidableRel taskSortLe := fun a b => by
  unfold taskSortLe; infer_instance

/-- The while-loop of sort_tasks_by_priority_and_dependencies, with explicit
fuel. Each iteration takes the ready tasks (or, when none is ready, the
first task of numerically lowest priority value), sorts them by the
priority/complexity key, emits them, and removes them from the remaining
list. Fuel at least the length of the remaining list always suffices. -/
def sortTasksAux (fuel : Nat) (remaining : List AnalysisTask) : List AnalysisTask :=
  match fuel, remaining with
  | _, [] => []
  | 0, _ :: _ => []
  | fuel + 1, r :: rs =>
    let ready0 := readyTasks (r :: rs)
    let ready := if ready0.isEmpty then [pyMinBy (fun t => t.priority.value) r rs] else ready0
    let readySorted := List.insertionSort taskSortLe ready
    let remaining2 := readySorted.foldl (fun rem t => rem.erase t) (r :: rs)
    readySorted ++ sortTasksAux fuel remaining2

/-- Method sort_tasks_by_priority_and_dependencies: run the loop with
sufficient fuel. -/
def sort_tasks_by_priority_and_dependencies (tasks : List AnalysisTask) : List AnalysisTask :=
  sortTasksAux tasks.length tasks

/-- Method can_run_in_parallel: the candidate shares no dependency edge, in
either direction, with the current batch. -/
def can_run_in_parallel (task : AnalysisTask) (current_batch : List AnalysisTask) : Bool :=
  !(task.dependencies.any (fun dep_id =>
      current_batch.any (fun t => t.task_id == dep_id))) &&
  !(current_batch.any (fun batch_task => batch_task.dependencies.contains task.task_id))

/-- The loop state of group_tasks_into_batches. -/
structure BatchState where
  batches : List TaskBatch
  current_batch_tasks : List AnalysisTask
  current_batch_time : Nat
  batch_counter : Nat

/-- Close the current tasks into a TaskBatch record. -/
def mkBatch (counter : Nat) (tasks : List AnalysisTask) (time : Nat) : TaskBatch :=
  { batch_id := "batch_" ++ toString counter
    tasks := tasks
    estimated_total_time := time
    max_parallel_agents := tasks.length }

/-- One iteration of the batching loop of group_tasks_into_batches. -/
def groupStep (sch : TaskScheduler) (st : BatchState) (task : AnalysisTask) : BatchState :=
  let can_add :=
    decide (st.current_batch_tasks.length < sch.max_parallel_tasks) &&
    decide (st.current_batch_time + task.estimated_time ≤ sch.max_analysis_time_per_file * 2) &&
    can_run_in_parallel task st.current_batch_tasks
  if can_add && !st.current_batch_tasks.isEmpty then
    { st with
        current_batch_tasks := st.current_batch_tasks ++ [task]
        current_batch_time := max st.current_batch_time task.estimated_time }
  else if st.current_batch_tasks.isEmpty then
    { st with current_batch_tasks := [task], current_batch_time := task.estimated_time }
  else
    { batches := st.batches ++ [mkBatch st.batch_counter st.current_batch_tasks st.current_batch_time]
      current_batch_tasks := [task]
      current_batch_time := task.estimated_time
      batch_counter := st.batch_counter + 1 }

/-- Method group_tasks_into_batches: fold the batching step over the sorted
tasks and close the trailing batch. -/
def group_tasks_into_batches (sch : TaskScheduler) (sorted_tasks : List AnalysisTask) :
    List TaskBatch :=
  let st := sorted_tasks.foldl (groupStep sch) ⟨[], [], 0, 0⟩
  if st.current_batch_tasks.isEmpty then st.batches
  else st.batches ++ [mkBatch st.batch_counter st.current_batch_tasks st.current_batch_time]

/-- The task list produced by the first three planning steps (creation,
dependency analysis, metric calculation) of create_execution_plan. -/
def planTasks (sch : TaskScheduler) (mr_changes : List MRChange) (mr_info : MRInfo) :
    List AnalysisTask :=
  calculate_task_metrics sch (analyze_task_dependencies sch
    (create_analysis_tasks sch mr_changes mr_info))

/-- Method create_execution_plan: plan tasks, sort, and group into batches. -/
def create_execution_plan (sch : TaskScheduler) (mr_changes : List MRChange)
    (mr_info : MRInfo) : List TaskBatch :=
  group_tasks_into_batches sch (sort_tasks_by_priority_and_dependencies
    (planTasks sch mr_changes mr_info))

/-- Index of the first batch of the plan containing a task with the given
id. -/
def batchIndexOf (plan : List TaskBatch) (id : String) : Option Nat :=
  plan.findIdx? (fun b => b.tasks.any (fun t => t.task_id == id))

/-! ## Resource manager data model (resource_manager module) -/

/-- Enum AgentStatus of the source. -/
inductive AgentStatus
  | idle
  | busy
  | error
  | offline
deriving DecidableEq

/-- Dataclass AgentInstance. Times and scores are exact rationals; the
wrapped CodeAnalyzer object (the opaque analysis capability) is omitted
because no managed algorithm inspects it. -/
structure AgentInstance where
  agent_id : String
  status : AgentStatus
  current_task_id : Option String := none
  created_at : ℚ := 0
  last_activity : ℚ := 0
  total_tasks_completed : Nat := 0
  total_analysis_time : ℚ := 0
  average_response_time : ℚ := 0
  error_count : Nat := 0
  performance_score : ℚ := 1.0
deriving DecidableEq

/-- The ResourceManager class state: configuration plus the mutable pool
and queue. The pool dict is modelled as its value list in insertion order
(agent ids are unique); the executor, locks and the running-task future
dict are concurrency plumbing with no bearing on the verified logic. -/
structure ResourceManager where
  min_agents : Nat := 8
  max_agents : Nat := 32
  agent_timeout : ℚ := 600
  auto_scale : Bool := true
  agent_pool : List AgentInstance := []
  task_queue : List AnalysisTask := []

/-! ## Resource manager operations -/

/-- The Python key comparison of find_best_available_agent: the tuple
(performance_score, -average_response_time, total_tasks_completed) of x is
strictly greater, lexicographically, than that of y. -/
def agentKeyGt (x y : AgentInstance) : Bool :=
  decide (y.performance_score < x.performance_score) ||
  (decide (x.performance_score = y.performance_score) &&
    (decide (-y.average_response_time < -x.average_response_time) ||
     (decide (-x.average_response_time = -y.average_response_time) &&
      decide (y.total_tasks_completed < x.total_tasks_completed))))

/-- Method find_best_available_agent: among idle agents, the first one
attaining the lexicographic maximum of the performance key (Python max
keeps the first maximal element). -/
def find_best_available_agent (rm : ResourceManager) : Option AgentInstance :=
  match rm.agent_pool.filter (fun a => a.status == AgentStatus.idle) with
  | [] => none
  | a :: rest => some (rest.foldl (fun best x => if agentKeyGt x best then x else best) a)

/-- Method get_system_load: ratio of busy agents to pool size, zero for an
empty pool. -/
def get_system_load (rm : ResourceManager) : ℚ :=
  if rm.agent_pool.isEmpty then 0
  else ((rm.agent_pool.filter (fun a => a.status == AgentStatus.busy)).length : ℚ) /
    (rm.agent_pool.length : ℚ)

/-- Method can_scale_up. -/
def can_scale_up (rm : ResourceManager) : Bool :=
  rm.auto_scale &&
  decide (rm.agent_pool.length < rm.max_agents) &&
  decide (get_system_load rm > 0.8)

/-- Method create_agent_instance: append a fresh idle agent; the id embeds
the millisecond clock and the current pool size. -/
def create_agent_instance (rm : ResourceManager) (now : ℚ) : AgentInstance × ResourceManager :=
  let inst : AgentInstance :=
    { agent_id := "agent_" ++ toString ⌊now * 1000⌋ ++ "_" ++ toString rm.agent_pool.length
      status := AgentStatus.idle
      created_at := now
      last_activity := now }
  (inst, { rm with agent_pool := rm.agent_pool ++ [inst] })

/-- Method execute_task_with_agent: mark the agent busy on the task and
update it in the pool; the returned agent plays the role of the Future
handle given back to the caller. -/
def execute_task_with_agent (rm : ResourceManager) (now : ℚ) (task : AnalysisTask)
    (agent : AgentInstance) : Option AgentInstance × ResourceManager :=
  let updated := { agent with
    status := AgentStatus.busy
    current_task_id := some task.task_id
    last_activity := now }
  (some updated,
   { rm with agent_pool := rm.agent_pool.map (fun a =>
       if a.agent_id == agent.agent_id then updated else a) })

/-- Method assign_task: best idle agent, else scale up, else enqueue and
return none. -/
def assign_task (rm : ResourceManager) (now : ℚ) (task : AnalysisTask) :
    Option AgentInstance × ResourceManager :=
  match find_best_available_agent rm with
  | some best => execute_task_with_agent rm now task best
  | none =>
    if can_scale_up rm then
      let (inst, rm1) := create_agent_instance rm now
      execute_task_with_agent rm1 now task inst
    else
      (none, { rm with task_queue := rm.task_queue ++ [task] })

/-- Method calculate_performance_score: fresh agents score 1; otherwise a
0.7/0.3 blend of success rate and speed score, clamped to the interval
from 0.1 to 1. -/
def calculate_performance_score (agent : AgentInstance) : ℚ :=
  if agent.total_tasks_completed = 0 then 1.0
  else
    let success_rate : ℚ := 1.0 - (agent.error_count : ℚ) /
      ((max (agent.total_tasks_completed + agent.error_count) 1 : Nat) : ℚ)
    let avg_time := agent.average_response_time
    let speed_score : ℚ := max 0.1 (min 1.0 (300 / max avg_time 30))
    let performance_score := success_rate * 0.7 + speed_score * 0.3
    max 0.1 (min 1.0 performance_score)

/-- Method update_agent_performance: on success, bump the completion count
and total time, refresh the average response time and recompute the
performance score; failures leave the rolling metrics untouched. -/
def update_agent_performance (agent : AgentInstance) (execution_time : ℚ)
    (success : Bool) : AgentInstance :=
  if success then
    let a1 := { agent with
      total_tasks_completed := agent.total_tasks_completed + 1
      total_analysis_time := agent.total_analysis_time + execution_time }
    let a2 :=
      if a1.total_tasks_completed > 0 then
        { a1 with average_response_time := a1.total_analysis_time / (a1.total_tasks_completed : ℚ) }
      else a1
    { a2 with performance_score := calculate_performance_score a2 }
  else agent

/-- The successful branch of run_task: update the performance metrics for
a successful execution (the analysis result itself is opaque). -/
def run_task_success (agent : AgentInstance) (execution_time : ℚ) : AgentInstance :=
  update_agent_performance agent execution_time true

/-- The exception branch of run_task: update metrics with success false,
mark the agent errored and bump its error count, then re-raise (the raised
exception lands in the Future and later triggers the completion callback). -/
def run_task_failure (agent : AgentInstance) (execution_time : ℚ) : AgentInstance :=
  let a1 := update_agent_performance agent execution_time false
  { a1 with status := AgentStatus.error, error_count := a1.error_count + 1 }

/-- Method process_queued_tasks: pop the queue head, if any, and hand it to
assign_task. -/
def process_queued_tasks (rm : ResourceManager) (now : ℚ) : ResourceManager :=
  match rm.task_queue with
  | [] => rm
  | task :: rest => (assign_task { rm with task_queue := rest } now task).2

/-- Method on_task_completed, the done callback of every task Future: mark
the executing agent idle, clear its task, then try the queue. It runs
regardless of whether run_task returned or raised. -/
def on_task_completed (rm : ResourceManager) (now : ℚ) (agent_id : String) : ResourceManager :=
  let rm1 := { rm with agent_pool := rm.agent_pool.map (fun a =>
    if a.agent_id == agent_id then
      { a with status := AgentStatus.idle, current_task_id := none, last_activity := now }
    else a) }
  process_queued_tasks rm1 now

/-- Method cleanup_inactive_agents: collect every non-busy agent past the
inactivity timeout while the pool is above the minimum, then delete all
collected agents. The minimum test uses the pool size before any removal,
exactly as the source loop does. -/
def cleanup_inactive_agents (rm : ResourceManager) (now : ℚ) : ResourceManager :=
  let agents_to_remove := rm.agent_pool.filter (fun a =>
    !(a.status == AgentStatus.busy) &&
    decide (now - a.last_activity > rm.agent_timeout) &&
    decide (rm.agent_pool.length > rm.min_agents))
  { rm with agent_pool := rm.agent_pool.filter (fun a =>
      !(agents_to_remove.any (fun b => b.agent_id == a.agent_id))) }

/-! ## Orchestrator data model (orchestrator module) -/

/-- Enum OrchestrationState of the source. -/
inductive OrchestrationState
  | initializing
  | planning
  | executing
  | aggregating
  | completed
  | error
  | cancelled
deriving DecidableEq

/-- Dataclass OrchestrationProgress (the fields the pipeline updates). -/
structure OrchestrationProgress where
  state : OrchestrationState
  total_tasks : Nat := 0
  completed_tasks : Nat := 0
  failed_tasks : Nat := 0
  current_batch : Nat := 0
  total_batches : Nat := 0
deriving DecidableEq

/-- Dataclass AgentAnalysisResult: the fields of an analysis result read by
the orchestrator (issue payloads abstracted to strings). -/
structure AgentAnalysisResult where
  issues : List String := []
  analysis_depth : String := "shallow"
  conversation_turns : Nat := 0
  confidence_score : ℚ := 0
deriving DecidableEq

/-- Outcome of one task Future as observed by execute_task_batch: a result
or a raised exception message (worker failure or timeout). -/
inductive TaskOutcome
  | ok (r : AgentAnalysisResult)
  | err (e : String)
deriving DecidableEq

/-- One per-file result dict built by execute_task_batch. Failure entries
carry zero issues and the error text; fields the failure dict omits keep
their defaults, matching how aggregation reads them with dict.get. -/
structure FileResult where
  task_id : String
  file_path : String
  success : Bool
  issues_count : Nat := 0
  analysis_depth : String := "shallow"
  conversation_turns : Nat := 0
  confidence_score : ℚ := 0
  error : Option String := none
deriving DecidableEq

/-- The aggregated report of aggregate_results: the summary counters plus
the raw per-file results (wall-clock derived metrics are outside the
model). -/
structure OrchestrationResult where
  total_files_analyzed : Nat
  total_issues_found : Nat
  total_files : Nat
  successful_analyses : Nat
  failed_analyses : Nat
  average_confidence : ℚ
  file_results : List FileResult
deriving DecidableEq

/-! ## Orchestrator operations

Task execution is external to the orchestrator: a run is parameterized by
an outcome oracle mapping each task either to none (assign_task returned
no Future, the task was queued) or to the outcome its Future delivered. -/

/-- Python dict insertion with string keys: replace in place or append. -/
def dictInsert {α : Type} (d : List (String × α)) (k : String) (v : α) :
    List (String × α) :=
  if d.any (fun p => p.1 == k) then d.map (fun p => if p.1 == k then (k, v) else p)
  else d ++ [(k, v)]

/-- The task_futures dict of execute_task_batch: one entry per task whose
assign_task call returned a Future, keyed by task id. -/
def taskFutures (outcome : AnalysisTask → Option TaskOutcome) (tasks : List AnalysisTask) :
    List (String × (AnalysisTask × TaskOutcome)) :=
  tasks.foldl (fun d task =>
    match outcome task with
    | some o => dictInsert d task.task_id (task, o)
    | none => d) []

/-- The result dict built for one completed Future of execute_task_batch. -/
def renderFileResult (entry : String × (AnalysisTask × TaskOutcome)) : FileResult :=
  match entry with
  | (task_id, (task, .ok r)) =>
    { task_id := task_id
      file_path := task.file_path
      success := true
      issues_count := r.issues.length
      analysis_depth := r.analysis_depth
      conversation_turns := r.conversation_turns
      confidence_score := r.confidence_score }
  | (task_id, (task, .err e)) =>
    { task_id := task_id
      file_path := task.file_path
      success := false
      issues_count := 0
      error := some e }

/-- Method execute_task_batch: submit every task, then collect one result
per obtained Future, success or failure; tasks without a Future produce
nothing. -/
def execute_task_batch (outcome : AnalysisTask → Option TaskOutcome) (batch : TaskBatch) :
    List FileResult :=
  (taskFutures outcome batch.tasks).map renderFileResult

/-- One iteration of the batch loop of execute_analysis_plan over the
enumerated plan: bump the one-based batch counter, run the batch, extend
the accumulated results and the completed and failed counts. -/
def executePlanStep (outcome : AnalysisTask → Option TaskOutcome)
    (acc : List FileResult × OrchestrationProgress) (ib : Nat × TaskBatch) :
    List FileResult × OrchestrationProgress :=
  let batch_index := ib.1
  let batch := ib.2
  let prog1 := { acc.2 with current_batch := batch_index + 1 }
  let batch_results := execute_task_batch outcome batch
  (acc.1 ++ batch_results,
   { prog1 with
      completed_tasks := prog1.completed_tasks + (batch_results.filter (fun r => r.success)).length
      failed_tasks := prog1.failed_tasks + (batch_results.filter (fun r => !r.success)).length })

/-- Method execute_analysis_plan: run the batches in order, accumulating
results and progress counts. The loop reads no cancellation information:
the progress state is never consulted. -/
def execute_analysis_plan (outcome : AnalysisTask → Option TaskOutcome)
    (plan : List TaskBatch) (progress : OrchestrationProgress) :
    List FileResult × OrchestrationProgress :=
  plan.enum.foldl (executePlanStep outcome) ([], progress)

/-- Method calculate_average_confidence. -/
def calculate_average_confidence (results : List FileResult) : ℚ :=
  if results.isEmpty then 0
  else (results.map (fun r => r.confidence_score)).sum / (results.length : ℚ)

/-- Method aggregate_results: split by success and compute the summary
counters of the final report. -/
def aggregate_results (file_results : List FileResult) : OrchestrationResult :=
  let successful_results := file_results.filter (fun r => r.success)
  let failed_results := file_results.filter (fun r => !r.success)
  { total_files_analyzed := successful_results.length
    total_issues_found := (successful_results.map (fun r => r.issues_count)).sum
    total_files := file_results.length
    successful_analyses := successful_results.length
    failed_analyses := failed_results.length
    average_confidence := calculate_average_confidence successful_results
    file_results := file_results }

/-- Method execute_orchestration for a run whose planning succeeded: walk
the state machine planning, executing, aggregating, completed, threading
the progress record through the plan execution. -/
def execute_orchestration (outcome : AnalysisTask → Option TaskOutcome)
    (plan : List TaskBatch) (progress0 : OrchestrationProgress) :
    OrchestrationResult × OrchestrationProgress :=
  let p1 := { progress0 with state := OrchestrationState.planning }
  let p2 := { p1 with
    total_tasks := ((plan.map TaskBatch.tasks).map List.length).sum
    total_batches := plan.length }
  let p3 := { p2 with state := OrchestrationState.executing }
  let executed := execute_analysis_plan outcome plan p3
  let file_results := executed.1
  let p4 := executed.2
  let p5 := { p4 with state := OrchestrationState.aggregating }
  let result := aggregate_results file_results
  let p6 := { p5 with state := OrchestrationState.completed }
  (result, p6)

/-- Method cancel_orchestration over the table of in-flight runs: set the
state of the named run to cancelled and report whether it existed. -/
def cancel_orchestration (orchs : List (String × OrchestrationProgress)) (review_id : String) :
    Bool × List (String × OrchestrationProgress) :=
  if orchs.any (fun p => p.1 == review_id) then
    (true, orchs.map (fun p =>
      if p.1 == review_id then (p.1, { p.2 with state := OrchestrationState.cancelled }) else p))
  else (false, orchs)

/-! ## Lemmas about batching -/

/-- Two tasks share no dependency edge in either direction. -/
def noDepEdge (x y : AnalysisTask) : Prop :=
  x.task_id ∉ y.dependencies ∧ y.task_id ∉ x.dependencies

/-- The batching step condition, named for case analysis. -/
def canAddCond (sch : TaskScheduler) (st : BatchState) (task : AnalysisTask) : Bool :=
  (decide (st.current_batch_tasks.length < sch.max_parallel_tasks) &&
   decide (st.current_batch_time + task.estimated_time ≤ sch.max_analysis_time_per_file * 2) &&
   can_run_in_parallel task st.current_batch_tasks) && !st.current_batch_tasks.isEmpty

/-- The tasks of the state of the batching fold, in order: closed batches
then the open batch. -/
def batchStateTasks (st : BatchState) : List AnalysisTask :=
  (st.batches.map TaskBatch.tasks).flatten ++ st.current_batch_tasks

/-- A concrete scheduler for the witnesses: one abstract import matcher and
the identity in place of the md5 digest. -/
def schW : TaskScheduler :=
  { import_patterns := [fun diff => if diff = "import alib" then ["alib"] else []] }

/-- Two concrete change descriptors: b.py imports alib.py. -/
def changesW : List MRChange :=
  [{ new_path := some "alib.py" }, { new_path := some "b.py", diff := "import alib" }]

/-- A topological ranking of the two concrete tasks. -/
def rankW : String → Nat := fun id => if id = "task_0_alib.p" then 0 else 1

/-- The planned task of alib.py as computed by planTasks on the witness
input. -/
def taskAW : AnalysisTask :=
  { task_id := "task_0_alib.p"
    file_path := "alib.py"
    context := { file_path := "alib.py", file_content := "", changed_lines := [],
                 diff_content := "", language := "", mr_title := "", mr_description := "" }
    priority := .medium
    complexity := .simple
    estimated_time := 120
    dependencies := [] }

/-- The planned task of b.py as computed by planTasks on the witness
input. -/
def taskBW : AnalysisTask :=
  { task_id := "task_0_b.py"
    file_path := "b.py"
    context := { file_path := "b.py", file_content := "", changed_lines := [],
                 diff_content := "import alib", language := "", mr_title := "",
                 mr_description := "" }
    priority := .medium
    complexity := .simple
    estimated_time := 120
    dependencies := ["task_0_alib.p"] }

/-- C2 counterexample: with the maximum parallel-task count configured to
zero, the plan for a single file still opens a batch holding one task, so
a produced batch exceeds the configured bound. -/
def schC2 : TaskScheduler := { max_parallel_tasks := 0 }

/-- A single change descriptor for the C2 counterexample. -/
def changesC2 : List MRChange := [{ new_path := some "a.py" }]

/-- Two concrete idle agents with performance scores 0.5 and 0.9 for the
C7 witness, the weaker one listed first. -/
def agentLowW : AgentInstance :=
  { agent_id := "low", status := AgentStatus.idle, performance_score := 0.5 }

/-- The stronger concrete agent of the C7 witness. -/
def agentHighW : AgentInstance :=
  { agent_id := "high", status := AgentStatus.idle, performance_score := 0.9 }

/-- The concrete pool of the C7 witness. -/
def rmW : ResourceManager := { agent_pool := [agentLowW, agentHighW] }

/-- The success-rate term of the performance formula, exactly as written in
calculate_performance_score, as a function of the agent fields. -/
def successRateOf (a : AgentInstance) : ℚ :=
  1.0 - (a.error_count : ℚ) / ((max (a.total_tasks_completed + a.error_count) 1 : Nat) : ℚ)

/-- The speed-score term of the performance formula: the reference duration
300 over the average response time floored at 30, clamped to the interval
from 0.1 to 1. -/
def speedScoreOf (a : AgentInstance) : ℚ :=
  max 0.1 (min 1.0 (300 / max a.average_response_time 30))

/-- The performance formula exactly as claim C8 states it: the 0.7/0.3
blend of success rate and speed score with no outer clamp. -/
def performanceScoreClaimC8 (a : AgentInstance) : ℚ :=
  successRateOf a * 0.7 + speedScoreOf a * 0.3

/-- A worker with many prior failures for the C8 counterexample. -/
def agentC8 : AgentInstance :=
  { agent_id := "c8", status := AgentStatus.busy, error_count := 100 }

/-- A concrete pool of three long-idle agents over a minimum of one, for
the C3 evaluation. -/
def rmC3 : ResourceManager :=
  { min_agents := 1
    max_agents := 4
    agent_timeout := 10
    auto_scale := true
    agent_pool :=
      [{ agent_id := "a1", status := AgentStatus.idle },
       { agent_id := "a2", status := AgentStatus.idle },
       { agent_id := "a3", status := AgentStatus.idle }]
    task_queue := [] }

/-- A busy agent about to fail its task, for the C4 evaluation. -/
def agentC4 : AgentInstance :=
  { agent_id := "a1", status := AgentStatus.busy, current_task_id := some "t1" }

/-- The pool holding the C4 agent right after its task raised. -/
def rmC4 : ResourceManager :=
  { agent_pool := [run_task_failure agentC4 5], task_queue := [] }

/-! ## Lemmas about the orchestrator -/

/-- Outcome is a delivered result. -/
def isOkOutcome : Option TaskOutcome → Bool
  | some (.ok _) => true
  | _ => false

/-- Outcome is a raised exception. -/
def isErrOutcome : Option TaskOutcome → Bool
  | some (.err _) => true
  | _ => false

/-- The entries of the task_futures dict when task ids are unique: one per
task with a Future, in submission order. -/
def dictEntries (outcome : AnalysisTask → Option TaskOutcome) :
    List AnalysisTask → List (String × (AnalysisTask × TaskOutcome))
  | [] => []
  | t :: ts =>
    match outcome t with
    | some o => (t.task_id, (t, o)) :: dictEntries outcome ts
    | none => dictEntries outcome ts

/-! ## Claims C5, C6, C10 -/

/-- A fresh progress record as stored when a run is registered. -/
def progInit : OrchestrationProgress := { state := OrchestrationState.initializing }

/-- A progress record already carrying the cancelled state. -/
def progCancelled : OrchestrationProgress := { state := OrchestrationState.cancelled }

/-- A plain concrete task used by the orchestrator-level runs. -/
def mkTaskC (id : String) (path : String) : AnalysisTask :=
  { task_id := id
    file_path := path
    context := { file_path := path, file_content := "", changed_lines := [],
                 diff_content := "", language := "", mr_title := "", mr_description := "" }
    priority := .medium
    complexity := .simple
    estimated_time := 120
    dependencies := [] }

/-- A concrete batch holding the given tasks. -/
def mkBatchC (bid : String) (ts : List AnalysisTask) : TaskBatch :=
  { batch_id := bid
    tasks := ts
    estimated_total_time := 120
    max_parallel_agents := ts.length }

/-- An oracle that hands every task a Future delivering an empty result. -/
def okOutcome : AnalysisTask → Option TaskOutcome := fun _ => some (.ok {})

/-- A three-batch plan of three independent tasks. -/
def planC5 : List TaskBatch :=
  [mkBatchC "batch_0" [mkTaskC "c1" "c1.py"],
   mkBatchC "batch_1" [mkTaskC "c2" "c2.py"],
   mkBatchC "batch_2" [mkTaskC "c3" "c3.py"]]

/-- The ten-task, three-batch plan of the C6 scenario. -/
def planC6 : List TaskBatch :=
  [mkBatchC "batch_0" [mkTaskC "t1" "f1.py", mkTaskC "t2" "f2.py", mkTaskC "t3" "f3.py",
     mkTaskC "t4" "f4.py"],
   mkBatchC "batch_1" [mkTaskC "t5" "f5.py", mkTaskC "t6" "f6.py", mkTaskC "t7" "f7.py"],
   mkBatchC "batch_2" [mkTaskC "t8" "f8.py", mkTaskC "t9" "f9.py", mkTaskC "t10" "f10.py"]]

/-- The oracle of the C6 scenario: every task gets a Future, task #5 raises. -/
def outcomeC6 : AnalysisTask → Option TaskOutcome :=
  fun t => if t.task_id = "t5" then some (.err "analysis failed") else some (.ok {})

/-- The two-batch plan of the C10 scenario. -/
def planC10 : List TaskBatch :=
  [mkBatchC "batch_0" [mkTaskC "w1" "g1.py"],
   mkBatchC "batch_1" [mkTaskC "w2" "g2.py", mkTaskC "w3" "g3.py"]]

/-- The oracle of the C10 scenario: the pool is exhausted when w2 is
submitted, so assign_task returns no Future for it. -/
def outcomeC10 : AnalysisTask → Option TaskOutcome :=
  fun t => if t.task_id = "w2" then none else some (.ok {})


theorem noDepEdge_symmetric : Symmetric noDepEdge := by
  intro x y h
  exact ⟨h.2, h.1⟩

theorem can_run_in_parallel_noDepEdge {task : AnalysisTask} {cur : List AnalysisTask}
    (h : can_run_in_parallel task cur = true) :
    ∀ t ∈ cur, noDepEdge t task := by
  intro t ht
  unfold can_run_in_parallel at h
  simp only [Bool.and_eq_true, Bool.not_eq_true', List.any_eq_false] at h
  rcases h with ⟨h1, h2⟩
  constructor
  · intro hmem
    apply h1 t.task_id hmem
    exact List.any_eq_true.mpr ⟨t, ht, by simp⟩
  · intro hmem
    apply h2 t ht
    simpa using hmem

/-- The batching step written by cases on its two tests. -/
theorem groupStep_eq (sch : TaskScheduler) (st : BatchState) (task : AnalysisTask) :
    groupStep sch st task =
      if canAddCond sch st task then
        { st with
            current_batch_tasks := st.current_batch_tasks ++ [task]
            current_batch_time := max st.current_batch_time task.estimated_time }
      else if st.current_batch_tasks.isEmpty then
        { st with current_batch_tasks := [task], current_batch_time := task.estimated_time }
      else
        { batches := st.batches ++ [mkBatch st.batch_counter st.current_batch_tasks st.current_batch_time]
          current_batch_tasks := [task]
          current_batch_time := task.estimated_time
          batch_counter := st.batch_counter + 1 } := rfl

/-- The invariant preserved by one batching step: every closed batch and
the open batch are pairwise free of dependency edges. -/
theorem groupStep_safe (sch : TaskScheduler) (st : BatchState) (task : AnalysisTask)
    (hb : ∀ b ∈ st.batches, b.tasks.Pairwise noDepEdge)
    (hc : st.current_batch_tasks.Pairwise noDepEdge) :
    (∀ b ∈ (groupStep sch st task).batches, b.tasks.Pairwise noDepEdge) ∧
      (groupStep sch st task).current_batch_tasks.Pairwise noDepEdge := by
  rw [groupStep_eq]
  by_cases h1 : canAddCond sch st task = true
  · rw [if_pos h1]
    refine ⟨hb, ?_⟩
    rw [List.pairwise_append]
    refine ⟨hc, List.pairwise_singleton _ _, ?_⟩
    intro a ha b hbmem
    rw [List.mem_singleton] at hbmem
    rw [hbmem]
    have hcan : can_run_in_parallel task st.current_batch_tasks = true := by
      unfold canAddCond at h1
      have p := (Bool.and_eq_true _ _).mp h1
      have q := (Bool.and_eq_true _ _).mp p.1
      exact q.2
    exact can_run_in_parallel_noDepEdge hcan a ha
  · rw [if_neg h1]
    by_cases h2 : st.current_batch_tasks.isEmpty = true
    · rw [if_pos h2]
      exact ⟨hb, List.pairwise_singleton _ _⟩
    · rw [if_neg h2]
      refine ⟨?_, List.pairwise_singleton _ _⟩
      intro b hbm
      rw [List.mem_append, List.mem_singleton] at hbm
      rcases hbm with hbm | hbm
      · exact hb b hbm
      · subst hbm
        exact hc

/-- Edge freedom over the whole batching fold. -/
theorem group_foldl_safe (sch : TaskScheduler) :
    ∀ (l : List AnalysisTask) (st : BatchState),
      (∀ b ∈ st.batches, b.tasks.Pairwise noDepEdge) →
      st.current_batch_tasks.Pairwise noDepEdge →
      (∀ b ∈ (l.foldl (groupStep sch) st).batches, b.tasks.Pairwise noDepEdge) ∧
        (l.foldl (groupStep sch) st).current_batch_tasks.Pairwise noDepEdge := by
  intro l
  induction l with
  | nil => intro st hb hc; exact ⟨hb, hc⟩
  | cons t ts ih =>
    intro st hb hc
    have hstep := groupStep_safe sch st t hb hc
    exact ih (groupStep sch st t) hstep.1 hstep.2

/-- Every batch of a produced plan is pairwise free of dependency edges. -/
theorem group_tasks_into_batches_safe (sch : TaskScheduler) (l : List AnalysisTask) :
    ∀ b ∈ group_tasks_into_batches sch l, b.tasks.Pairwise noDepEdge := by
  unfold group_tasks_into_batches
  have h := group_foldl_safe sch l ⟨[], [], 0, 0⟩ (by intro b hb; cases hb) List.Pairwise.nil
  by_cases hemp : (l.foldl (groupStep sch) ⟨[], [], 0, 0⟩).current_batch_tasks.isEmpty = true
  · rw [if_pos hemp]
    exact h.1
  · rw [if_neg hemp]
    intro b hbm
    rw [List.mem_append, List.mem_singleton] at hbm
    rcases hbm with hbm | hbm
    · exact h.1 b hbm
    · subst hbm
      exact h.2

/-- The capacity invariant preserved by one batching step, for a positive
parallelism bound. -/
theorem groupStep_cap (sch : TaskScheduler) (hmax : 1 ≤ sch.max_parallel_tasks)
    (st : BatchState) (task : AnalysisTask)
    (hb : ∀ b ∈ st.batches, b.tasks.length ≤ sch.max_parallel_tasks)
    (hc : st.current_batch_tasks.length ≤ sch.max_parallel_tasks) :
    (∀ b ∈ (groupStep sch st task).batches, b.tasks.length ≤ sch.max_parallel_tasks) ∧
      (groupStep sch st task).current_batch_tasks.length ≤ sch.max_parallel_tasks := by
  rw [groupStep_eq]
  by_cases h1 : canAddCond sch st task = true
  · rw [if_pos h1]
    refine ⟨hb, ?_⟩
    have hlt : st.current_batch_tasks.length < sch.max_parallel_tasks := by
      unfold canAddCond at h1
      have p := (Bool.and_eq_true _ _).mp h1
      have q := (Bool.and_eq_true _ _).mp p.1
      have r := (Bool.and_eq_true _ _).mp q.1
      exact of_decide_eq_true r.1
    simp only [List.length_append, List.length_singleton]
    omega
  · rw [if_neg h1]
    by_cases h2 : st.current_batch_tasks.isEmpty = true
    · rw [if_pos h2]
      refine ⟨hb, ?_⟩
      simpa using hmax
    · rw [if_neg h2]
      refine ⟨?_, by simpa using hmax⟩
      intro b hbm
      rw [List.mem_append, List.mem_singleton] at hbm
      rcases hbm with hbm | hbm
      · exact hb b hbm
      · subst hbm
        exact hc

/-- Capacity over the whole batching fold. -/
theorem group_foldl_cap (sch : TaskScheduler) (hmax : 1 ≤ sch.max_parallel_tasks) :
    ∀ (l : List AnalysisTask) (st : BatchState),
      (∀ b ∈ st.batches, b.tasks.length ≤ sch.max_parallel_tasks) →
      st.current_batch_tasks.length ≤ sch.max_parallel_tasks →
      (∀ b ∈ (l.foldl (groupStep sch) st).batches, b.tasks.length ≤ sch.max_parallel_tasks) ∧
        (l.foldl (groupStep sch) st).current_batch_tasks.length ≤ sch.max_parallel_tasks := by
  intro l
  induction l with
  | nil => intro st hb hc; exact ⟨hb, hc⟩
  | cons t ts ih =>
    intro st hb hc
    have hstep := groupStep_cap sch hmax st t hb hc
    exact ih (groupStep sch st t) hstep.1 hstep.2

/-- Every batch of a produced plan respects a positive parallelism bound. -/
theorem group_tasks_into_batches_cap (sch : TaskScheduler) (hmax : 1 ≤ sch.max_parallel_tasks)
    (l : List AnalysisTask) :
    ∀ b ∈ group_tasks_into_batches sch l, b.tasks.length ≤ sch.max_parallel_tasks := by
  unfold group_tasks_into_batches
  have h := group_foldl_cap sch hmax l ⟨[], [], 0, 0⟩ (by intro b hb; cases hb) (by simp)
  by_cases hemp : (l.foldl (groupStep sch) ⟨[], [], 0, 0⟩).current_batch_tasks.isEmpty = true
  · rw [if_pos hemp]
    exact h.1
  · rw [if_neg hemp]
    intro b hbm
    rw [List.mem_append, List.mem_singleton] at hbm
    rcases hbm with hbm | hbm
    · exact h.1 b hbm
    · subst hbm
      exact h.2

/-- One batching step appends its task to the state content. -/
theorem groupStep_tasks (sch : TaskScheduler) (st : BatchState) (task : AnalysisTask) :
    batchStateTasks (groupStep sch st task) = batchStateTasks st ++ [task] := by
  rw [groupStep_eq]
  unfold batchStateTasks
  by_cases h1 : canAddCond sch st task = true
  · rw [if_pos h1]
    simp
  · rw [if_neg h1]
    by_cases h2 : st.current_batch_tasks.isEmpty = true
    · rw [if_pos h2]
      have hnil : st.current_batch_tasks = [] := by
        simpa [List.isEmpty_iff] using h2
      simp [hnil]
    · rw [if_neg h2]
      simp [mkBatch]

/-- The batching fold appends the processed tasks to the state content. -/
theorem group_foldl_tasks (sch : TaskScheduler) :
    ∀ (l : List AnalysisTask) (st : BatchState),
      batchStateTasks (l.foldl (groupStep sch) st) = batchStateTasks st ++ l := by
  intro l
  induction l with
  | nil => intro st; simp
  | cons t ts ih =>
    intro st
    rw [List.foldl_cons, ih (groupStep sch st t), groupStep_tasks]
    simp

/-- The produced plan partitions the sorted task list into consecutive
chunks: flattening the batches gives back the input in order. -/
theorem group_tasks_into_batches_flatten (sch : TaskScheduler) (l : List AnalysisTask) :
    ((group_tasks_into_batches sch l).map TaskBatch.tasks).flatten = l := by
  unfold group_tasks_into_batches
  have h := group_foldl_tasks sch l ⟨[], [], 0, 0⟩
  unfold batchStateTasks at h
  by_cases hemp : (l.foldl (groupStep sch) ⟨[], [], 0, 0⟩).current_batch_tasks.isEmpty = true
  · have hnil : (l.foldl (groupStep sch) ⟨[], [], 0, 0⟩).current_batch_tasks = [] := by
      simpa [List.isEmpty_iff] using hemp
    rw [if_pos hemp]
    simpa [hnil] using h
  · rw [if_neg hemp]
    simp only [List.map_append, List.map_cons, List.map_nil, List.flatten_append] at h ⊢
    simpa [mkBatch] using h

/-! ## Lemmas about the priority and dependency sort -/

theorem pyMinBy_spec {α : Type} (f : α → Nat) :
    ∀ (xs : List α) (x : α),
      pyMinBy f x xs ∈ x :: xs ∧ ∀ u ∈ x :: xs, f (pyMinBy f x xs) ≤ f u := by
  intro xs
  induction xs with
  | nil =>
    intro x
    refine ⟨List.mem_singleton.mpr rfl, ?_⟩
    intro u hu
    rw [List.mem_singleton] at hu
    rw [hu]
    exact Nat.le_refl _
  | cons y ys ih =>
    intro x
    by_cases hyx : f y < f x
    · have hstep : pyMinBy f x (y :: ys) = pyMinBy f y ys := by
        show pyMinBy f (if f y < f x then y else x) ys = pyMinBy f y ys
        rw [if_pos hyx]
      rcases ih y with ⟨hm, hle⟩
      rw [hstep]
      constructor
      · rcases List.mem_cons.mp hm with h | h
        · rw [h]
          exact List.mem_cons_of_mem _ (List.mem_cons_self _ _)
        · exact List.mem_cons_of_mem _ (List.mem_cons_of_mem _ h)
      · intro u hu
        rcases List.mem_cons.mp hu with h | h
        · rw [h]
          exact Nat.le_trans (hle y (List.mem_cons_self _ _)) (Nat.le_of_lt hyx)
        · exact hle u h
    · have hstep : pyMinBy f x (y :: ys) = pyMinBy f x ys := by
        show pyMinBy f (if f y < f x then y else x) ys = pyMinBy f x ys
        rw [if_neg hyx]
      rcases ih x with ⟨hm, hle⟩
      rw [hstep]
      constructor
      · rcases List.mem_cons.mp hm with h | h
        · rw [h]
          exact List.mem_cons_self _ _
        · exact List.mem_cons_of_mem _ (List.mem_cons_of_mem _ h)
      · intro u hu
        rcases List.mem_cons.mp hu with h | h
        · rw [h]
          exact hle x (List.mem_cons_self _ _)
        · rcases List.mem_cons.mp h with h2 | h2
          · rw [h2]
            exact Nat.le_trans (hle x (List.mem_cons_self _ _)) (Nat.le_of_not_lt hyx)
          · exact hle u (List.mem_cons_of_mem _ h2)

theorem readyTasks_sublist (l : List AnalysisTask) : List.Sublist (readyTasks l) l :=
  List.filter_sublist l

/-- Under a topological ranking of the dependency graph, a task of minimal
rank in a nonempty remaining set is ready: the force-selection branch of
the sort loop is never taken on acyclic inputs. -/
theorem readyTasks_ne_nil (rank : String → Nat) (r : AnalysisTask) (rs : List AnalysisTask)
    (hr : ∀ t ∈ r :: rs, ∀ d ∈ t.dependencies, ∀ u ∈ r :: rs, u.task_id = d →
      rank d < rank t.task_id) :
    readyTasks (r :: rs) ≠ [] := by
  have hspec := pyMinBy_spec (fun t => rank t.task_id) rs r
  rcases hspec with ⟨hm, hmin⟩
  apply List.ne_nil_of_mem (a := pyMinBy (fun t => rank t.task_id) r rs)
  rw [readyTasks, List.mem_filter]
  refine ⟨hm, ?_⟩
  rw [List.all_eq_true]
  intro dep hdep
  rw [Bool.not_eq_true', List.any_eq_false]
  intro u hu
  simp only [beq_iff_eq]
  intro hid
  have h1 := hr _ hm dep hdep u hu hid
  have h2 := hmin u hu
  rw [hid] at h2
  omega

/-- A task with a dependency still in the remaining set is not ready. -/
theorem notMem_readyTasks {A B : AnalysisTask} {l : List AnalysisTask}
    (hA : A ∈ l) (hdep : A.task_id ∈ B.dependencies) : B ∉ readyTasks l := by
  intro hB
  have hcond := (List.mem_filter.mp hB).2
  rw [List.all_eq_true] at hcond
  have h2 := hcond A.task_id hdep
  rw [Bool.not_eq_true', List.any_eq_false] at h2
  exact absurd (by simp) (h2 A hA)

theorem foldl_erase_sublist :
    ∀ (ts rem : List AnalysisTask),
      List.Sublist (ts.foldl (fun rem t => rem.erase t) rem) rem := by
  intro ts
  induction ts with
  | nil => intro rem; exact List.Sublist.refl rem
  | cons t ts ih =>
    intro rem
    exact List.Sublist.trans (ih (rem.erase t)) (List.erase_sublist t rem)

theorem mem_foldl_erase :
    ∀ (ts rem : List AnalysisTask) (x : AnalysisTask),
      x ∈ rem → x ∉ ts → x ∈ ts.foldl (fun rem t => rem.erase t) rem := by
  intro ts
  induction ts with
  | nil => intro rem x hx _; exact hx
  | cons t ts ih =>
    intro rem x hx hnx
    have hne : x ≠ t := fun h => hnx (h ▸ List.mem_cons_self t ts)
    have hx1 : x ∈ rem.erase t := (List.mem_erase_of_ne hne).mpr hx
    exact ih (rem.erase t) x hx1 (fun h => hnx (List.mem_cons_of_mem t h))

theorem length_foldl_erase_lt (t : AnalysisTask) (ts rem : List AnalysisTask)
    (ht : t ∈ rem) :
    ((t :: ts).foldl (fun rem t => rem.erase t) rem).length < rem.length := by
  have h1 : (ts.foldl (fun rem t => rem.erase t) (rem.erase t)).length ≤ (rem.erase t).length :=
    (foldl_erase_sublist ts (rem.erase t)).length_le
  have h2 : (rem.erase t).length = rem.length - 1 := List.length_erase_of_mem ht
  have h3 : 0 < rem.length := List.length_pos.mpr (List.ne_nil_of_mem ht)
  have h4 : (t :: ts).foldl (fun rem t => rem.erase t) rem =
      ts.foldl (fun rem t => rem.erase t) (rem.erase t) := rfl
  rw [h4]
  omega

theorem subperm_cons_split {t : AnalysisTask} {ts rem : List AnalysisTask}
    (h : List.Subperm (t :: ts) rem) : t ∈ rem ∧ List.Subperm ts (rem.erase t) := by
  obtain ⟨l, hperm, hsub⟩ := h
  have htl : t ∈ l := hperm.mem_iff.mpr (List.mem_cons_self t ts)
  refine ⟨hsub.subset htl, ?_⟩
  have h1 : List.Perm (l.erase t) ((t :: ts).erase t) := hperm.erase t
  rw [List.erase_cons_head] at h1
  exact ⟨l.erase t, h1, hsub.erase t⟩

theorem perm_append_foldl_erase :
    ∀ (ts rem : List AnalysisTask), List.Subperm ts rem →
      List.Perm rem (ts ++ ts.foldl (fun rem t => rem.erase t) rem) := by
  intro ts
  induction ts with
  | nil => intro rem _; exact List.Perm.refl rem
  | cons t ts ih =>
    intro rem h
    obtain ⟨ht, hts⟩ := subperm_cons_split h
    have h1 : List.Perm rem (t :: rem.erase t) := List.perm_cons_erase ht
    have h2 := ih (rem.erase t) hts
    have h3 : (t :: ts).foldl (fun rem t => rem.erase t) rem =
        ts.foldl (fun rem t => rem.erase t) (rem.erase t) := rfl
    rw [h3]
    exact h1.trans (h2.cons t)

/-- The unfolding of one iteration of the sort loop. -/
theorem sortTasksAux_succ_cons (fuel : Nat) (r : AnalysisTask) (rs : List AnalysisTask) :
    sortTasksAux (fuel + 1) (r :: rs) =
      (List.insertionSort taskSortLe
        (if (readyTasks (r :: rs)).isEmpty then [pyMinBy (fun t => t.priority.value) r rs]
         else readyTasks (r :: rs))) ++
      sortTasksAux fuel
        ((List.insertionSort taskSortLe
          (if (readyTasks (r :: rs)).isEmpty then [pyMinBy (fun t => t.priority.value) r rs]
           else readyTasks (r :: rs))).foldl (fun rem t => rem.erase t) (r :: rs)) := rfl

/-- The chosen ready chunk of one iteration is a subpermutation of the
remaining list. -/
theorem readyChunk_subperm (r : AnalysisTask) (rs : List AnalysisTask) :
    List.Subperm
      (List.insertionSort taskSortLe
        (if (readyTasks (r :: rs)).isEmpty then [pyMinBy (fun t => t.priority.value) r rs]
         else readyTasks (r :: rs)))
      (r :: rs) := by
  by_cases hemp : (readyTasks (r :: rs)).isEmpty = true
  · rw [if_pos hemp]
    refine ⟨[pyMinBy (fun t => t.priority.value) r rs], ?_, ?_⟩
    · exact (List.perm_insertionSort taskSortLe _).symm
    · rw [List.singleton_sublist]
      exact (pyMinBy_spec (fun t => t.priority.value) rs r).1
  · rw [if_neg hemp]
    exact ⟨readyTasks (r :: rs), (List.perm_insertionSort taskSortLe _).symm,
      readyTasks_sublist (r :: rs)⟩

/-- The chosen ready chunk of one iteration is nonempty. -/
theorem readyChunk_ne_nil (r : AnalysisTask) (rs : List AnalysisTask) :
    (List.insertionSort taskSortLe
      (if (readyTasks (r :: rs)).isEmpty then [pyMinBy (fun t => t.priority.value) r rs]
       else readyTasks (r :: rs))) ≠ [] := by
  intro hnil
  by_cases hemp : (readyTasks (r :: rs)).isEmpty = true
  · rw [if_pos hemp] at hnil
    have hlen := (List.perm_insertionSort taskSortLe
      [pyMinBy (fun t => t.priority.value) r rs]).length_eq
    rw [hnil] at hlen
    simp at hlen
  · rw [if_neg hemp] at hnil
    have hlen := (List.perm_insertionSort taskSortLe (readyTasks (r :: rs))).length_eq
    rw [hnil] at hlen
    rw [List.isEmpty_iff] at hemp
    have hpos := List.length_pos.mpr hemp
    simp only [List.length_nil] at hlen
    omega

/-- The remaining list shrinks strictly at every iteration of the sort
loop, hence fuel equal to the initial length suffices. -/
theorem sortTasksAux_remaining_lt (r : AnalysisTask) (rs : List AnalysisTask) :
    (((List.insertionSort taskSortLe
        (if (readyTasks (r :: rs)).isEmpty then [pyMinBy (fun t => t.priority.value) r rs]
         else readyTasks (r :: rs))).foldl (fun rem t => rem.erase t) (r :: rs))).length <
      (r :: rs).length := by
  rcases hchunk : (List.insertionSort taskSortLe
      (if (readyTasks (r :: rs)).isEmpty then [pyMinBy (fun t => t.priority.value) r rs]
       else readyTasks (r :: rs))) with _ | ⟨s, ss⟩
  · exact absurd hchunk (readyChunk_ne_nil r rs)
  · have hsub := readyChunk_subperm r rs
    rw [hchunk] at hsub
    have hs : s ∈ (r :: rs) := hsub.subset (List.mem_cons_self s ss)
    exact length_foldl_erase_lt s ss (r :: rs) hs

/-- With sufficient fuel the sort loop emits a permutation of its input:
every task is scheduled exactly once and the loop always terminates. -/
theorem sortTasksAux_perm :
    ∀ (fuel : Nat) (remaining : List AnalysisTask),
      remaining.length ≤ fuel → List.Perm (sortTasksAux fuel remaining) remaining := by
  intro fuel
  induction fuel with
  | zero =>
    intro remaining h
    have hnil : remaining = [] := List.length_eq_zero.mp (Nat.le_zero.mp h)
    rw [hnil]
    exact List.Perm.refl _
  | succ fuel ih =>
    intro remaining h
    match remaining with
    | [] => exact List.Perm.refl _
    | r :: rs =>
      rw [sortTasksAux_succ_cons]
      have hsp := readyChunk_subperm r rs
      have hperm := perm_append_foldl_erase _ (r :: rs) hsp
      have hlt := sortTasksAux_remaining_lt r rs
      have hfuel : (((List.insertionSort taskSortLe
          (if (readyTasks (r :: rs)).isEmpty then [pyMinBy (fun t => t.priority.value) r rs]
           else readyTasks (r :: rs))).foldl (fun rem t => rem.erase t) (r :: rs))).length ≤
          fuel := by
        simp only [List.length_cons] at h hlt
        omega
      have hrec := ih _ hfuel
      exact ((hrec.append_left _).trans hperm.symm)

/-- Topological correctness of the sort loop: under a ranking of the
acyclic dependency graph, a task is always emitted strictly before every
task that depends on it. -/
theorem sortTasksAux_dep_order :
    ∀ (fuel : Nat) (remaining : List AnalysisTask) (rank : String → Nat) (A B : AnalysisTask),
      remaining.length ≤ fuel →
      (∀ t ∈ remaining, ∀ d ∈ t.dependencies, ∀ u ∈ remaining, u.task_id = d →
        rank d < rank t.task_id) →
      A ∈ remaining → B ∈ remaining → A.task_id ∈ B.dependencies →
      List.Sublist [A, B] (sortTasksAux fuel remaining) := by
  intro fuel
  induction fuel with
  | zero =>
    intro remaining rank A B h hr hA hB hdep
    have hnil : remaining = [] := List.length_eq_zero.mp (Nat.le_zero.mp h)
    rw [hnil] at hA
    exact absurd hA (List.not_mem_nil A)
  | succ fuel ih =>
    intro remaining rank A B h hr hA hB hdep
    cases remaining with
    | nil => exact absurd hA (List.not_mem_nil A)
    | cons r rs =>
      rw [sortTasksAux_succ_cons]
      have hne : readyTasks (r :: rs) ≠ [] := readyTasks_ne_nil rank r rs hr
      have hcond : ¬ ((readyTasks (r :: rs)).isEmpty = true) := by
        rw [List.isEmpty_iff]
        exact hne
      simp only [if_neg hcond]
      have hsp : List.Subperm (List.insertionSort taskSortLe (readyTasks (r :: rs))) (r :: rs) :=
        ⟨readyTasks (r :: rs), (List.perm_insertionSort taskSortLe _).symm,
          readyTasks_sublist (r :: rs)⟩
      have hBnotready : B ∉ readyTasks (r :: rs) := notMem_readyTasks hA hdep
      have hBnotRS : B ∉ List.insertionSort taskSortLe (readyTasks (r :: rs)) := fun hm =>
        hBnotready ((List.perm_insertionSort taskSortLe _).mem_iff.mp hm)
      have hBrem2 : B ∈ (List.insertionSort taskSortLe (readyTasks (r :: rs))).foldl
          (fun rem t => rem.erase t) (r :: rs) :=
        mem_foldl_erase _ (r :: rs) B hB hBnotRS
      have hsubl2 : List.Sublist ((List.insertionSort taskSortLe (readyTasks (r :: rs))).foldl
          (fun rem t => rem.erase t) (r :: rs)) (r :: rs) :=
        foldl_erase_sublist _ (r :: rs)
      have hlen2 : ((List.insertionSort taskSortLe (readyTasks (r :: rs))).foldl
          (fun rem t => rem.erase t) (r :: rs)).length < (r :: rs).length := by
        rcases hRS : List.insertionSort taskSortLe (readyTasks (r :: rs)) with _ | ⟨s, ss⟩
        · have hlen := (List.perm_insertionSort taskSortLe (readyTasks (r :: rs))).length_eq
          rw [hRS] at hlen
          have hpos := List.length_pos.mpr hne
          simp only [List.length_nil] at hlen
          omega
        · rw [hRS] at hsp
          have hs : s ∈ (r :: rs) := hsp.subset (List.mem_cons_self s ss)
          exact length_foldl_erase_lt s ss (r :: rs) hs
      have hfuel2 : ((List.insertionSort taskSortLe (readyTasks (r :: rs))).foldl
          (fun rem t => rem.erase t) (r :: rs)).length ≤ fuel := by
        simp only [List.length_cons] at h hlen2
        omega
      have hr2 : ∀ t ∈ (List.insertionSort taskSortLe (readyTasks (r :: rs))).foldl
          (fun rem t => rem.erase t) (r :: rs), ∀ d ∈ t.dependencies,
          ∀ u ∈ (List.insertionSort taskSortLe (readyTasks (r :: rs))).foldl
            (fun rem t => rem.erase t) (r :: rs), u.task_id = d → rank d < rank t.task_id := by
        intro t ht d hd u hu hid
        exact hr t (hsubl2.subset ht) d hd u (hsubl2.subset hu) hid
      by_cases hARS : A ∈ List.insertionSort taskSortLe (readyTasks (r :: rs))
      · have hleft : List.Sublist [A] (List.insertionSort taskSortLe (readyTasks (r :: rs))) :=
          List.singleton_sublist.mpr hARS
        have hBsort : B ∈ sortTasksAux fuel ((List.insertionSort taskSortLe
            (readyTasks (r :: rs))).foldl (fun rem t => rem.erase t) (r :: rs)) :=
          (sortTasksAux_perm fuel _ hfuel2).mem_iff.mpr hBrem2
        have hright : List.Sublist [B] (sortTasksAux fuel ((List.insertionSort taskSortLe
            (readyTasks (r :: rs))).foldl (fun rem t => rem.erase t) (r :: rs))) :=
          List.singleton_sublist.mpr hBsort
        exact hleft.append hright
      · have hArem2 : A ∈ (List.insertionSort taskSortLe (readyTasks (r :: rs))).foldl
            (fun rem t => rem.erase t) (r :: rs) :=
          mem_foldl_erase _ (r :: rs) A hA hARS
        have hihres := ih _ rank A B hfuel2 hr2 hArem2 hBrem2 hdep
        exact hihres.trans (List.sublist_append_right _ _)

/-- One step of the batch index search. -/
theorem batchIndexOf_cons (c : TaskBatch) (rest : List TaskBatch) (id : String) :
    batchIndexOf (c :: rest) id =
      if c.tasks.any (fun t => t.task_id == id) then some 0
      else (batchIndexOf rest id).map (fun i => i + 1) := by
  unfold batchIndexOf
  rw [List.findIdx?_cons]
  by_cases h : (c.tasks.any (fun t => t.task_id == id)) = true
  · rw [if_pos h, if_pos h]
  · rw [if_neg h, if_neg h]
    exact List.findIdx?_succ

/-- Every task of the plan content has a batch index. -/
theorem batchIndexOf_exists :
    ∀ (plan : List TaskBatch) (x : AnalysisTask),
      x ∈ (plan.map TaskBatch.tasks).flatten →
      ∃ i, batchIndexOf plan x.task_id = some i := by
  intro plan
  induction plan with
  | nil =>
    intro x hx
    simp at hx
  | cons c rest ih =>
    intro x hx
    rw [batchIndexOf_cons]
    by_cases h : (c.tasks.any (fun t => t.task_id == x.task_id)) = true
    · rw [if_pos h]
      exact ⟨0, rfl⟩
    · rw [if_neg h]
      simp only [List.map_cons, List.flatten_cons, List.mem_append] at hx
      rcases hx with hx | hx
      · exact absurd (List.any_eq_true.mpr ⟨x, hx, by simp⟩) h
      · obtain ⟨i, hi⟩ := ih x hx
        refine ⟨i + 1, ?_⟩
        rw [hi]
        rfl

/-- If the plan content lists A before B, ids are unique, no batch holds a
dependency edge and B depends on A, then the batch of A has a strictly
smaller index than the batch of B. -/
theorem batch_order_of_flatten :
    ∀ (plan : List TaskBatch) (A B : AnalysisTask),
      ¬ A.task_id = B.task_id →
      A.task_id ∈ B.dependencies →
      (((plan.map TaskBatch.tasks).flatten).map AnalysisTask.task_id).Nodup →
      (∀ b ∈ plan, b.tasks.Pairwise noDepEdge) →
      List.Sublist [A, B] ((plan.map TaskBatch.tasks).flatten) →
      ∃ i j, batchIndexOf plan A.task_id = some i ∧
        batchIndexOf plan B.task_id = some j ∧ i < j := by
  intro plan
  induction plan with
  | nil =>
    intro A B hne hdep hnd hsafe hsub
    simp at hsub
  | cons c rest ih =>
    intro A B hne hdep hnd hsafe hsub
    simp only [List.map_cons, List.flatten_cons] at hsub hnd
    have hAmem : A ∈ c.tasks ++ (rest.map TaskBatch.tasks).flatten :=
      hsub.subset (List.mem_cons_self A [B])
    have hBmem : B ∈ c.tasks ++ (rest.map TaskBatch.tasks).flatten :=
      hsub.subset (List.mem_cons_of_mem A (List.mem_cons_self B []))
    have hinj := List.inj_on_of_nodup_map hnd
    rw [List.map_append] at hnd
    rcases List.nodup_append.mp hnd with ⟨hnd1, hnd2, hdisj⟩
    by_cases hAc : A ∈ c.tasks
    · have hpA : (c.tasks.any (fun t => t.task_id == A.task_id)) = true :=
        List.any_eq_true.mpr ⟨A, hAc, by simp⟩
      have hBc : B ∉ c.tasks := by
        intro hBc
        have hABne : A ≠ B := fun he => hne (congrArg AnalysisTask.task_id he)
        have hedge := (List.Pairwise.forall noDepEdge_symmetric
          (hsafe c (List.mem_cons_self c rest))) hAc hBc hABne
        exact hedge.1 hdep
      have hpB : (c.tasks.any (fun t => t.task_id == B.task_id)) = false := by
        rw [List.any_eq_false]
        intro u hu
        simp only [beq_iff_eq]
        intro hid
        have hu2 : u ∈ c.tasks ++ (rest.map TaskBatch.tasks).flatten :=
          List.mem_append_left _ hu
        have huB : u = B := hinj hu2 hBmem hid
        rw [huB] at hu
        exact hBc hu
      have hBrest : B ∈ (rest.map TaskBatch.tasks).flatten := by
        rcases List.mem_append.mp hBmem with hmem | hmem
        · exact absurd hmem hBc
        · exact hmem
      obtain ⟨j, hj⟩ := batchIndexOf_exists rest B hBrest
      refine ⟨0, j + 1, ?_, ?_, by omega⟩
      · rw [batchIndexOf_cons, if_pos hpA]
      · rw [batchIndexOf_cons, if_neg (by rw [hpB]; exact Bool.false_ne_true), hj]
        rfl
    · have hpA : (c.tasks.any (fun t => t.task_id == A.task_id)) = false := by
        rw [List.any_eq_false]
        intro u hu
        simp only [beq_iff_eq]
        intro hid
        have hu2 : u ∈ c.tasks ++ (rest.map TaskBatch.tasks).flatten :=
          List.mem_append_left _ hu
        have huA : u = A := hinj hu2 hAmem hid
        rw [huA] at hu
        exact hAc hu
      have hsub2 : List.Sublist [A, B] ((rest.map TaskBatch.tasks).flatten) := by
        rcases List.sublist_append_iff.mp hsub with ⟨l1, l2, heq, h1, h2⟩
        cases l1 with
        | nil =>
          rw [List.nil_append] at heq
          rw [← heq] at h2
          exact h2
        | cons a l1 =>
          rw [List.cons_append] at heq
          have ha : a = A := (List.cons.injEq _ _ _ _).mp heq |>.1.symm
          have : A ∈ c.tasks := h1.subset (ha ▸ List.mem_cons_self a l1)
          exact absurd this hAc
      have hArest : A ∈ (rest.map TaskBatch.tasks).flatten :=
        hsub2.subset (List.mem_cons_self A [B])
      have hBrest : B ∈ (rest.map TaskBatch.tasks).flatten :=
        hsub2.subset (List.mem_cons_of_mem A (List.mem_cons_self B []))
      have hBc : B ∉ c.tasks := by
        intro hBc
        exact hdisj (List.mem_map_of_mem AnalysisTask.task_id hBc)
          (List.mem_map_of_mem AnalysisTask.task_id hBrest)
      have hpB : (c.tasks.any (fun t => t.task_id == B.task_id)) = false := by
        rw [List.any_eq_false]
        intro u hu
        simp only [beq_iff_eq]
        intro hid
        have hu2 : u ∈ c.tasks ++ (rest.map TaskBatch.tasks).flatten :=
          List.mem_append_left _ hu
        have huB : u = B := hinj hu2 hBmem hid
        rw [huB] at hu
        exact hBc hu
      obtain ⟨i, j, hi, hj, hij⟩ := ih A B hne hdep hnd2
        (fun b hb => hsafe b (List.mem_cons_of_mem c hb)) hsub2
      refine ⟨i + 1, j + 1, ?_, ?_, by omega⟩
      · rw [batchIndexOf_cons, if_neg (by rw [hpA]; exact Bool.false_ne_true), hi]
        rfl
      · rw [batchIndexOf_cons, if_neg (by rw [hpB]; exact Bool.false_ne_true), hj]
        rfl

/-! ## Claim C1 and C2 -/

/-- C1: for every input whose extracted dependency graph is acyclic
(witnessed by a topological ranking of task ids), whenever task B lists
task A among its dependencies, create_execution_plan places A in a batch
of strictly smaller index than the batch of B; moreover the sort emits a
permutation of its input (no task is lost, the loop terminates), and when
no task is ready the loop force-selects a task of numerically lowest
priority value and continues on the remainder. -/
theorem C1_dependency_safety :
    (∀ (sch : TaskScheduler) (mr_changes : List MRChange) (mr_info : MRInfo)
        (rank : String → Nat) (A B : AnalysisTask),
      (∀ t ∈ planTasks sch mr_changes mr_info, ∀ d ∈ t.dependencies,
        ∀ u ∈ planTasks sch mr_changes mr_info, u.task_id = d → rank d < rank t.task_id) →
      ((planTasks sch mr_changes mr_info).map AnalysisTask.task_id).Nodup →
      A ∈ planTasks sch mr_changes mr_info →
      B ∈ planTasks sch mr_changes mr_info →
      A.task_id ∈ B.dependencies →
      ∃ i j, batchIndexOf (create_execution_plan sch mr_changes mr_info) A.task_id = some i ∧
        batchIndexOf (create_execution_plan sch mr_changes mr_info) B.task_id = some j ∧
        i < j) ∧
    (∀ tasks : List AnalysisTask,
      List.Perm (sort_tasks_by_priority_and_dependencies tasks) tasks) ∧
    (∀ (fuel : Nat) (r : AnalysisTask) (rs : List AnalysisTask),
      readyTasks (r :: rs) = [] →
      sortTasksAux (fuel + 1) (r :: rs) =
        pyMinBy (fun t => t.priority.value) r rs ::
          sortTasksAux fuel ((r :: rs).erase (pyMinBy (fun t => t.priority.value) r rs)) ∧
      pyMinBy (fun t => t.priority.value) r rs ∈ r :: rs ∧
      (∀ u ∈ r :: rs,
        (pyMinBy (fun t => t.priority.value) r rs).priority.value ≤ u.priority.value)) := by
  refine ⟨?_, ?_, ?_⟩
  · intro sch mr_changes mr_info rank A B hr hnd hA hB hdep
    have hrankAB : rank A.task_id < rank B.task_id := hr B hB A.task_id hdep A hA rfl
    have hne : ¬ A.task_id = B.task_id := by
      intro he
      rw [he] at hrankAB
      omega
    have hperm : List.Perm (sort_tasks_by_priority_and_dependencies
        (planTasks sch mr_changes mr_info)) (planTasks sch mr_changes mr_info) :=
      sortTasksAux_perm _ _ (Nat.le_refl _)
    have hnd2 : ((sort_tasks_by_priority_and_dependencies
        (planTasks sch mr_changes mr_info)).map AnalysisTask.task_id).Nodup :=
      ((hperm.map AnalysisTask.task_id).nodup_iff).mpr hnd
    have hsubAB : List.Sublist [A, B] (sort_tasks_by_priority_and_dependencies
        (planTasks sch mr_changes mr_info)) :=
      sortTasksAux_dep_order _ _ rank A B (Nat.le_refl _) hr hA hB hdep
    have hflat := group_tasks_into_batches_flatten sch
      (sort_tasks_by_priority_and_dependencies (planTasks sch mr_changes mr_info))
    have hsafe := group_tasks_into_batches_safe sch
      (sort_tasks_by_priority_and_dependencies (planTasks sch mr_changes mr_info))
    have hgoal := batch_order_of_flatten
      (create_execution_plan sch mr_changes mr_info) A B hne hdep
      (by unfold create_execution_plan; rw [hflat]; exact hnd2)
      (by unfold create_execution_plan; exact hsafe)
      (by unfold create_execution_plan; rw [hflat]; exact hsubAB)
    exact hgoal
  · intro tasks
    exact sortTasksAux_perm _ _ (Nat.le_refl _)
  · intro fuel r rs hready
    have hcond : (readyTasks (r :: rs)).isEmpty = true := List.isEmpty_iff.mpr hready
    refine ⟨?_, (pyMinBy_spec (fun t => t.priority.value) rs r).1,
      (pyMinBy_spec (fun t => t.priority.value) rs r).2⟩
    rw [sortTasksAux_succ_cons]
    simp only [if_pos hcond]
    rfl

unseal Rat.add Rat.ofScientific in
/-- Witness for C1: on the two-file input where b.py depends on alib.py,
the plan puts alib.py in a strictly earlier batch. -/
theorem C1_dependency_safety_witness :
    ∃ i j, batchIndexOf (create_execution_plan schW changesW {}) "task_0_alib.p" = some i ∧
      batchIndexOf (create_execution_plan schW changesW {}) "task_0_b.py" = some j ∧
      i < j :=
  C1_dependency_safety.1 schW changesW {} rankW taskAW taskBW
    (by decide) (by decide) (by decide) (by decide) (by decide)

unseal Rat.add Rat.ofScientific in
/-- C2 is false as stated: a batch of the produced plan has more tasks
than the configured maximum parallel-task count when that count is 0. -/
theorem C2_capacity_counterexample :
    ∃ b ∈ create_execution_plan schC2 changesC2 {},
      ¬ (b.tasks.length ≤ schC2.max_parallel_tasks) := by decide

/-- C2 amended: when the configured maximum parallel-task count is at
least one, every produced batch holds at most that many tasks; and in
every produced plan, regardless of configuration, no two tasks of a batch
are related by a dependency edge in either direction. -/
theorem C2_batch_capacity :
    (∀ (sch : TaskScheduler) (mr_changes : List MRChange) (mr_info : MRInfo),
      1 ≤ sch.max_parallel_tasks →
      ∀ b ∈ create_execution_plan sch mr_changes mr_info,
        b.tasks.length ≤ sch.max_parallel_tasks) ∧
    (∀ (sch : TaskScheduler) (mr_changes : List MRChange) (mr_info : MRInfo),
      ∀ b ∈ create_execution_plan sch mr_changes mr_info,
        ∀ x ∈ b.tasks, ∀ y ∈ b.tasks, x ≠ y →
          x.task_id ∉ y.dependencies ∧ y.task_id ∉ x.dependencies) := by
  constructor
  · intro sch mr_changes mr_info hmax b hb
    unfold create_execution_plan at hb
    exact group_tasks_into_batches_cap sch hmax _ b hb
  · intro sch mr_changes mr_info b hb x hx y hy hxy
    unfold create_execution_plan at hb
    exact (List.Pairwise.forall noDepEdge_symmetric
      (group_tasks_into_batches_safe sch _ b hb)) hx hy hxy

unseal Rat.add Rat.ofScientific in
/-- Witness for the amended C2 on the concrete two-file input. -/
theorem C2_batch_capacity_witness :
    (∀ b ∈ create_execution_plan schW changesW {},
      b.tasks.length ≤ schW.max_parallel_tasks) ∧
    (∀ b ∈ create_execution_plan schW changesW {},
      ∀ x ∈ b.tasks, ∀ y ∈ b.tasks, x ≠ y →
        x.task_id ∉ y.dependencies ∧ y.task_id ∉ x.dependencies) :=
  ⟨C2_batch_capacity.1 schW changesW {} (by decide),
   C2_batch_capacity.2 schW changesW {}⟩

/-! ## Claim C9 -/

/-- Provenance of created tasks: every task of the creation fold comes from
the accumulator or from a kept (non-deleted, usable-path) descriptor, and
carries the classified priority of its path. -/
theorem create_analysis_tasks_provenance :
    ∀ (sch : TaskScheduler) (mr_changes : List MRChange) (mr_info : MRInfo)
      (acc : List AnalysisTask),
      ∀ t ∈ mr_changes.foldl (createTaskStep sch mr_info) acc,
        t ∈ acc ∨ ∃ c ∈ mr_changes, c.deleted_file = false ∧
          chooseFilePath c = some t.file_path ∧
          t.priority = determine_task_priority sch t.file_path := by
  intro sch mr_changes
  induction mr_changes with
  | nil =>
    intro mr_info acc t ht
    exact Or.inl ht
  | cons c cs ih =>
    intro mr_info acc t ht
    rw [List.foldl_cons] at ht
    rcases ih mr_info (createTaskStep sch mr_info acc c) t ht with hin | ⟨c2, hc2, hprop⟩
    · unfold createTaskStep at hin
      by_cases hdel : c.deleted_file = true
      · rw [if_pos hdel] at hin
        exact Or.inl hin
      · rw [if_neg hdel] at hin
        rcases hfp : chooseFilePath c with _ | fp
        · rw [hfp] at hin
          exact Or.inl hin
        · rw [hfp] at hin
          rcases List.mem_append.mp hin with hacc | hnew
          · exact Or.inl hacc
          · rw [List.mem_singleton] at hnew
            refine Or.inr ⟨c, List.mem_cons_self c cs, Bool.not_eq_true _ ▸ hdel, ?_, ?_⟩
            · rw [hnew, hfp]
            · rw [hnew]
    · exact Or.inr ⟨c2, List.mem_cons_of_mem c hc2, hprop⟩

/-- The creation fold only appends: whatever is in the accumulator is in
the result. -/
theorem foldl_createTaskStep_mono (sch : TaskScheduler) (mr_info : MRInfo) :
    ∀ (cs : List MRChange) (acc : List AnalysisTask) (t : AnalysisTask),
      t ∈ acc → t ∈ cs.foldl (createTaskStep sch mr_info) acc := by
  intro cs
  induction cs with
  | nil =>
    intro acc t ht
    exact ht
  | cons c cs ih =>
    intro acc t ht
    rw [List.foldl_cons]
    apply ih
    unfold createTaskStep
    by_cases hdel : c.deleted_file = true
    · rw [if_pos hdel]
      exact ht
    · rw [if_neg hdel]
      rcases hfp : chooseFilePath c with _ | fp
      · exact ht
      · exact List.mem_append_left _ ht

/-- Completeness of task creation: every descriptor that is not marked
deleted and has a usable path produces a task for that path, carrying the
classified priority. -/
theorem create_analysis_tasks_complete (sch : TaskScheduler) (mr_info : MRInfo) :
    ∀ (mr_changes : List MRChange) (acc : List AnalysisTask),
      ∀ c ∈ mr_changes, c.deleted_file = false →
        ∀ fp, chooseFilePath c = some fp →
        ∃ t ∈ mr_changes.foldl (createTaskStep sch mr_info) acc,
          t.file_path = fp ∧ t.priority = determine_task_priority sch fp := by
  intro mr_changes
  induction mr_changes with
  | nil =>
    intro acc c hc
    exact absurd hc (List.not_mem_nil c)
  | cons c0 cs ih =>
    intro acc c hc hdel fp hfp
    rw [List.foldl_cons]
    rcases List.mem_cons.mp hc with he | hmem
    · refine ⟨{ task_id := generate_task_id sch fp mr_info.iid
                file_path := fp
                context := { file_path := fp, file_content := "", changed_lines := [],
                             diff_content := c0.diff, language := "",
                             mr_title := mr_info.title,
                             mr_description := mr_info.description }
                priority := determine_task_priority sch fp
                complexity := .moderate
                estimated_time := 300 }, ?_, rfl, rfl⟩
      apply foldl_createTaskStep_mono
      unfold createTaskStep
      have hdel0 : c0.deleted_file = false := he ▸ hdel
      have hfp0 : chooseFilePath c0 = some fp := he ▸ hfp
      rw [if_neg (by rw [hdel0]; exact Bool.false_ne_true), hfp0]
      exact List.mem_append_right _ (List.mem_singleton.mpr rfl)
    · exact ih (createTaskStep sch mr_info acc c0) c hmem hdel fp hfp

/-- The classifier defaults to medium when no rule of any of the three
pattern sets matches the path. -/
theorem determine_task_priority_default (sch : TaskScheduler) (file_path : String)
    (hcrit : ∀ pat ∈ sch.critical_patterns, pat file_path = false)
    (hhigh : ∀ pat ∈ sch.high_patterns, pat file_path = false)
    (hlow : ∀ pat ∈ sch.low_patterns, pat file_path = false) :
    determine_task_priority sch file_path = .medium := by
  unfold determine_task_priority
  rw [if_neg, if_neg, if_neg]
  · intro h
    rcases List.any_eq_true.mp h with ⟨pat, hmem, hpat⟩
    rw [hlow pat hmem] at hpat
    exact Bool.false_ne_true hpat
  · intro h
    rcases List.any_eq_true.mp h with ⟨pat, hmem, hpat⟩
    rw [hhigh pat hmem] at hpat
    exact Bool.false_ne_true hpat
  · intro h
    rcases List.any_eq_true.mp h with ⟨pat, hmem, hpat⟩
    rw [hcrit pat hmem] at hpat
    exact Bool.false_ne_true hpat

/-- C9: a path matching no classification rule yields Medium priority and
every created task carries the classified priority of its path; planning
an empty work-item list yields an empty plan; every created task stems
from a descriptor that is not marked deleted and has a usable path, so
deleted descriptors are skipped; conversely every non-deleted descriptor
with a usable path does produce a task for that path with its classified
priority, and in particular an unclassifiable such descriptor still yields
a task with Medium priority. -/
theorem C9_planning_defaults :
    (∀ (sch : TaskScheduler) (file_path : String),
      (∀ pat ∈ sch.critical_patterns, pat file_path = false) →
      (∀ pat ∈ sch.high_patterns, pat file_path = false) →
      (∀ pat ∈ sch.low_patterns, pat file_path = false) →
      determine_task_priority sch file_path = .medium) ∧
    (∀ (sch : TaskScheduler) (mr_changes : List MRChange) (mr_info : MRInfo),
      ∀ t ∈ create_analysis_tasks sch mr_changes mr_info,
        t.priority = determine_task_priority sch t.file_path) ∧
    (∀ (sch : TaskScheduler) (mr_info : MRInfo),
      create_execution_plan sch [] mr_info = []) ∧
    (∀ (sch : TaskScheduler) (mr_changes : List MRChange) (mr_info : MRInfo),
      ∀ t ∈ create_analysis_tasks sch mr_changes mr_info,
        ∃ c ∈ mr_changes, c.deleted_file = false ∧ chooseFilePath c = some t.file_path) ∧
    (∀ (sch : TaskScheduler) (mr_changes : List MRChange) (mr_info : MRInfo),
      ∀ c ∈ mr_changes, c.deleted_file = false →
        ∀ fp, chooseFilePath c = some fp →
        ∃ t ∈ create_analysis_tasks sch mr_changes mr_info,
          t.file_path = fp ∧ t.priority = determine_task_priority sch fp) ∧
    (∀ (sch : TaskScheduler) (mr_changes : List MRChange) (mr_info : MRInfo),
      ∀ c ∈ mr_changes, c.deleted_file = false →
        ∀ fp, chooseFilePath c = some fp →
        (∀ pat ∈ sch.critical_patterns, pat fp = false) →
        (∀ pat ∈ sch.high_patterns, pat fp = false) →
        (∀ pat ∈ sch.low_patterns, pat fp = false) →
        ∃ t ∈ create_analysis_tasks sch mr_changes mr_info,
          t.file_path = fp ∧ t.priority = TaskPriority.medium) := by
  refine ⟨?_, ?_, ?_, ?_, ?_, ?_⟩
  · intro sch file_path hcrit hhigh hlow
    exact determine_task_priority_default sch file_path hcrit hhigh hlow
  · intro sch mr_changes mr_info t ht
    rcases create_analysis_tasks_provenance sch mr_changes mr_info [] t ht with hin | hdata
    · exact absurd hin (List.not_mem_nil t)
    · exact hdata.choose_spec.2.2.2
  · intro sch mr_info
    rfl
  · intro sch mr_changes mr_info t ht
    rcases create_analysis_tasks_provenance sch mr_changes mr_info [] t ht with hin | hdata
    · exact absurd hin (List.not_mem_nil t)
    · rcases hdata with ⟨c, hc, hdel, hfp, _⟩
      exact ⟨c, hc, hdel, hfp⟩
  · intro sch mr_changes mr_info c hc hdel fp hfp
    exact create_analysis_tasks_complete sch mr_info mr_changes [] c hc hdel fp hfp
  · intro sch mr_changes mr_info c hc hdel fp hfp hcrit hhigh hlow
    obtain ⟨t, ht, hpath, hprio⟩ :=
      create_analysis_tasks_complete sch mr_info mr_changes [] c hc hdel fp hfp
    exact ⟨t, ht, hpath,
      hprio.trans (determine_task_priority_default sch fp hcrit hhigh hlow)⟩

/-- Witness for C9: a path matching no rule of the witness scheduler is
classified Medium, and the descriptor carrying it, being neither deleted
nor pathless, produces a task with that path and Medium priority. -/
theorem C9_planning_defaults_witness :
    determine_task_priority schW "weird.xyz" = TaskPriority.medium ∧
    (∃ t ∈ create_analysis_tasks schW [{ new_path := some "weird.xyz" }] {},
      t.file_path = "weird.xyz" ∧
        t.priority = determine_task_priority schW "weird.xyz") ∧
    (∃ t ∈ create_analysis_tasks schW [{ new_path := some "weird.xyz" }] {},
      t.file_path = "weird.xyz" ∧ t.priority = TaskPriority.medium) :=
  ⟨C9_planning_defaults.1 schW "weird.xyz" (by decide) (by decide) (by decide),
   C9_planning_defaults.2.2.2.2.1 schW [{ new_path := some "weird.xyz" }] {}
     { new_path := some "weird.xyz" } (by decide) (by decide) "weird.xyz" (by decide),
   C9_planning_defaults.2.2.2.2.2 schW [{ new_path := some "weird.xyz" }] {}
     { new_path := some "weird.xyz" } (by decide) (by decide) "weird.xyz" (by decide)
     (by decide) (by decide) (by decide)⟩

/-! ## Lemmas about best-fit selection -/

theorem agentKeyGt_iff {x y : AgentInstance} :
    agentKeyGt x y = true ↔
      y.performance_score < x.performance_score ∨
      (x.performance_score = y.performance_score ∧
        (x.average_response_time < y.average_response_time ∨
         (x.average_response_time = y.average_response_time ∧
          y.total_tasks_completed < x.total_tasks_completed))) := by
  unfold agentKeyGt
  simp only [Bool.or_eq_true, Bool.and_eq_true, decide_eq_true_eq, neg_lt_neg_iff, neg_inj]

theorem agentKeyGt_irrefl (x : AgentInstance) : agentKeyGt x x = false := by
  unfold agentKeyGt
  simp

theorem agentKeyGt_trans {x y z : AgentInstance}
    (h1 : agentKeyGt x y = true) (h2 : agentKeyGt y z = true) :
    agentKeyGt x z = true := by
  rw [agentKeyGt_iff] at h1 h2 ⊢
  rcases h1 with h1 | ⟨e1, h1⟩ <;> rcases h2 with h2 | ⟨e2, h2⟩
  · exact Or.inl (lt_trans h2 h1)
  · exact Or.inl (e2 ▸ h1)
  · exact Or.inl (by rw [e1]; exact h2)
  · refine Or.inr ⟨e1.trans e2, ?_⟩
    rcases h1 with h1 | ⟨f1, h1⟩ <;> rcases h2 with h2 | ⟨f2, h2⟩
    · exact Or.inl (lt_trans h1 h2)
    · exact Or.inl (f2 ▸ h1)
    · exact Or.inl (by rw [f1]; exact h2)
    · exact Or.inr ⟨f1.trans f2, lt_trans h2 h1⟩

theorem agentKeyGt_cases (x y : AgentInstance) :
    agentKeyGt x y = true ∨ agentKeyGt y x = true ∨
      (x.performance_score = y.performance_score ∧
       x.average_response_time = y.average_response_time ∧
       x.total_tasks_completed = y.total_tasks_completed) := by
  rcases lt_trichotomy x.performance_score y.performance_score with h | h | h
  · exact Or.inr (Or.inl (agentKeyGt_iff.mpr (Or.inl h)))
  · rcases lt_trichotomy x.average_response_time y.average_response_time with h2 | h2 | h2
    · exact Or.inl (agentKeyGt_iff.mpr (Or.inr ⟨h, Or.inl h2⟩))
    · rcases lt_trichotomy x.total_tasks_completed y.total_tasks_completed with h3 | h3 | h3
      · exact Or.inr (Or.inl (agentKeyGt_iff.mpr (Or.inr ⟨h.symm, Or.inr ⟨h2.symm, h3⟩⟩)))
      · exact Or.inr (Or.inr ⟨h, h2, h3⟩)
      · exact Or.inl (agentKeyGt_iff.mpr (Or.inr ⟨h, Or.inr ⟨h2, h3⟩⟩))
    · exact Or.inr (Or.inl (agentKeyGt_iff.mpr (Or.inr ⟨h.symm, Or.inl h2⟩)))
  · exact Or.inl (agentKeyGt_iff.mpr (Or.inl h))

theorem agentKeyGt_congr_left {x a r : AgentInstance}
    (hps : a.performance_score = x.performance_score)
    (hart : a.average_response_time = x.average_response_time)
    (htc : a.total_tasks_completed = x.total_tasks_completed)
    (h : agentKeyGt x r = true) : agentKeyGt a r = true := by
  rw [agentKeyGt_iff] at h ⊢
  rw [hps, hart, htc]
  exact h

theorem agentKeyGt_false_trans {x a r : AgentInstance}
    (h1 : agentKeyGt x r = true) (h2 : agentKeyGt x a = false) :
    agentKeyGt a r = true := by
  rcases agentKeyGt_cases a x with hax | hxa2 | ⟨e1, e2, e3⟩
  · exact agentKeyGt_trans hax h1
  · rw [h2] at hxa2
    exact absurd hxa2 Bool.false_ne_true
  · exact agentKeyGt_congr_left e1 e2 e3 h1

/-- The Python max over a nonempty agent list: the result is a member and
no element compares strictly greater. -/
theorem pyMaxAgent_spec :
    ∀ (rest : List AgentInstance) (a : AgentInstance),
      rest.foldl (fun best x => if agentKeyGt x best then x else best) a ∈ a :: rest ∧
      ∀ b ∈ a :: rest,
        agentKeyGt b (rest.foldl (fun best x => if agentKeyGt x best then x else best) a) =
          false := by
  intro rest
  induction rest with
  | nil =>
    intro a
    refine ⟨List.mem_singleton.mpr rfl, ?_⟩
    intro b hb
    rw [List.mem_singleton] at hb
    rw [hb]
    exact agentKeyGt_irrefl a
  | cons x xs ih =>
    intro a
    by_cases hxa : agentKeyGt x a = true
    · have hstep : (x :: xs).foldl (fun best y => if agentKeyGt y best then y else best) a =
          xs.foldl (fun best y => if agentKeyGt y best then y else best) x := by
        rw [List.foldl_cons, if_pos hxa]
      rcases ih x with ⟨hm, hmax⟩
      rw [hstep]
      refine ⟨?_, ?_⟩
      · rcases List.mem_cons.mp hm with h | h
        · rw [h]
          exact List.mem_cons_of_mem _ (List.mem_cons_self _ _)
        · exact List.mem_cons_of_mem _ (List.mem_cons_of_mem _ h)
      · intro b hb
        rcases List.mem_cons.mp hb with h | h
        · rw [h]
          by_contra hcon
          rw [Bool.not_eq_false] at hcon
          have htrans := agentKeyGt_trans hxa hcon
          rw [hmax x (List.mem_cons_self _ _)] at htrans
          exact Bool.false_ne_true htrans
        · exact hmax b h
    · have hstep : (x :: xs).foldl (fun best y => if agentKeyGt y best then y else best) a =
          xs.foldl (fun best y => if agentKeyGt y best then y else best) a := by
        rw [List.foldl_cons, if_neg hxa]
      rcases ih a with ⟨hm, hmax⟩
      rw [hstep]
      refine ⟨?_, ?_⟩
      · rcases List.mem_cons.mp hm with h | h
        · rw [h]
          exact List.mem_cons_self _ _
        · exact List.mem_cons_of_mem _ (List.mem_cons_of_mem _ h)
      · intro b hb
        rcases List.mem_cons.mp hb with h | h
        · rw [h]
          exact hmax a (List.mem_cons_self _ _)
        · rcases List.mem_cons.mp h with h2 | h2
          · rw [h2]
            by_contra hcon
            rw [Bool.not_eq_false] at hcon
            have hneg : agentKeyGt x a = false := Bool.not_eq_true _ ▸ hxa
            have htrans := agentKeyGt_false_trans hcon hneg
            rw [hmax a (List.mem_cons_self _ _)] at htrans
            exact Bool.false_ne_true htrans
          · exact hmax b (List.mem_cons_of_mem a h2)

/-- find_best_available_agent returns an idle pool member that no idle pool
member strictly beats on the selection key. -/
theorem find_best_available_agent_spec (rm : ResourceManager)
    (h : ∃ a ∈ rm.agent_pool, a.status = AgentStatus.idle) :
    ∃ best, find_best_available_agent rm = some best ∧ best ∈ rm.agent_pool ∧
      best.status = AgentStatus.idle ∧
      ∀ b ∈ rm.agent_pool, b.status = AgentStatus.idle → agentKeyGt b best = false := by
  rcases hav : rm.agent_pool.filter (fun a => a.status == AgentStatus.idle) with _ | ⟨a, rest⟩
  · obtain ⟨a0, hmem, hidle⟩ := h
    have hin : a0 ∈ rm.agent_pool.filter (fun a => a.status == AgentStatus.idle) :=
      List.mem_filter.mpr ⟨hmem, by simp [hidle]⟩
    rw [hav] at hin
    exact absurd hin (List.not_mem_nil a0)
  · rcases pyMaxAgent_spec rest a with ⟨hm, hmax⟩
    have hmf : rest.foldl (fun best x => if agentKeyGt x best then x else best) a ∈
        rm.agent_pool.filter (fun a => a.status == AgentStatus.idle) := by
      rw [hav]
      exact hm
    have hfind : find_best_available_agent rm =
        some (rest.foldl (fun best x => if agentKeyGt x best then x else best) a) := by
      unfold find_best_available_agent
      rw [hav]
    refine ⟨_, hfind, (List.mem_filter.mp hmf).1, ?_, ?_⟩
    · have hst := (List.mem_filter.mp hmf).2
      simpa using hst
    · intro b hb hbid
      have hbf : b ∈ rm.agent_pool.filter (fun a => a.status == AgentStatus.idle) :=
        List.mem_filter.mpr ⟨hb, by simp [hbid]⟩
      rw [hav] at hbf
      exact hmax b hbf

/-! ## Claims C7, C8, C3, C4 -/

/-- C7: whenever the pool holds an idle agent, assign_task hands the task
to the idle agent that maximizes the lexicographic key of performance
score, negated average response time, and completed count. -/
theorem C7_best_fit :
    ∀ (rm : ResourceManager) (now : ℚ) (task : AnalysisTask),
      (∃ a ∈ rm.agent_pool, a.status = AgentStatus.idle) →
      ∃ best, find_best_available_agent rm = some best ∧ best ∈ rm.agent_pool ∧
        best.status = AgentStatus.idle ∧
        (∀ b ∈ rm.agent_pool, b.status = AgentStatus.idle → agentKeyGt b best = false) ∧
        (assign_task rm now task).1 =
          some { best with
                  status := AgentStatus.busy
                  current_task_id := some task.task_id
                  last_activity := now } := by
  intro rm now task h
  obtain ⟨best, hfind, hmem, hidle, hmax⟩ := find_best_available_agent_spec rm h
  refine ⟨best, hfind, hmem, hidle, hmax, ?_⟩
  unfold assign_task
  rw [hfind]
  rfl

unseal Rat.ofScientific in
/-- Witness for C7: with idle scores 0.5 and 0.9 in the pool, selection
picks the 0.9 agent. -/
theorem C7_best_fit_witness :
    (∃ best, find_best_available_agent rmW = some best ∧ best ∈ rmW.agent_pool ∧
      best.status = AgentStatus.idle ∧
      (∀ b ∈ rmW.agent_pool, b.status = AgentStatus.idle → agentKeyGt b best = false) ∧
      (assign_task rmW 0 taskAW).1 =
        some { best with
                status := AgentStatus.busy
                current_task_id := some taskAW.task_id
                last_activity := 0 }) ∧
    (find_best_available_agent rmW).map AgentInstance.agent_id = some "high" :=
  ⟨C7_best_fit rmW 0 taskAW ⟨agentLowW, by decide, rfl⟩, by decide⟩

/-- C8 is false as stated: after a slow success on a worker with 100 prior
errors, the blend evaluates to 373/10100 but the stored performance score
is the clamped 1/10, so performanceScore differs from the claimed
0.7 x successRate + 0.3 x speedScore. -/
theorem C8_counterexample :
    (update_agent_performance agentC8 3000 true).performance_score = 1/10 ∧
    performanceScoreClaimC8 (update_agent_performance agentC8 3000 true) = 373/10100 ∧
    ¬ ((update_agent_performance agentC8 3000 true).performance_score =
        performanceScoreClaimC8 (update_agent_performance agentC8 3000 true)) := by
  have h1 : update_agent_performance agentC8 3000 true =
      { agent_id := "c8", status := AgentStatus.busy, error_count := 100,
        total_tasks_completed := 1, total_analysis_time := 3000,
        average_response_time := 3000,
        performance_score := max 0.1 (min 1.0
          ((1.0 - (100 : ℚ) / 101) * 0.7 + max 0.1 (min 1.0 (300 / max (3000:ℚ) 30)) * 0.3)) } := by
    unfold update_agent_performance calculate_performance_score agentC8
    norm_num
  rw [h1]
  unfold performanceScoreClaimC8 successRateOf speedScoreOf
  norm_num

/-- C8 amended: after every successful completion the rolling metrics
satisfy averageResponseTime = totalDuration / totalCompleted, and the
performance score equals the 0.7/0.3 blend of success rate and speed score
clamped, like the speed score itself, to the interval from 0.1 to 1. -/
theorem C8_performance_metrics :
    ∀ (agent : AgentInstance) (execution_time : ℚ),
      (update_agent_performance agent execution_time true).total_tasks_completed =
        agent.total_tasks_completed + 1 ∧
      (update_agent_performance agent execution_time true).total_analysis_time =
        agent.total_analysis_time + execution_time ∧
      (update_agent_performance agent execution_time true).average_response_time =
        (update_agent_performance agent execution_time true).total_analysis_time /
          ((update_agent_performance agent execution_time true).total_tasks_completed : ℚ) ∧
      (update_agent_performance agent execution_time true).performance_score =
        max 0.1 (min 1.0
          (successRateOf (update_agent_performance agent execution_time true) * 0.7 +
           speedScoreOf (update_agent_performance agent execution_time true) * 0.3)) := by
  intro agent t
  unfold update_agent_performance calculate_performance_score successRateOf speedScoreOf
  simp only [if_pos rfl]
  have hpos : agent.total_tasks_completed + 1 > 0 := Nat.succ_pos _
  rw [if_pos hpos]
  have hne : ¬ (agent.total_tasks_completed + 1 = 0) := Nat.succ_ne_zero _
  simp only [if_neg hne]
  refine ⟨rfl, rfl, rfl, rfl⟩

unseal Rat.sub in
/-- C3 evaluation at the failing input: one reclamation sweep over three
idle timed-out agents with min_agents one removes all three, leaving the
pool strictly below the configured minimum. The scale-up half of the claim
holds: can_scale_up demands pool size below the maximum. -/
theorem C3_minimum_bound_violated :
    rmC3.min_agents = 1 ∧
    rmC3.agent_pool.length = 3 ∧
    (cleanup_inactive_agents rmC3 100).agent_pool.length = 0 ∧
    (cleanup_inactive_agents rmC3 100).agent_pool.length < rmC3.min_agents := by decide

/-- C4 evaluation: the exception branch of run_task does set the Error
status and bump the error count, but the done callback that follows
unconditionally resets the worker to Idle, after which best-fit selection
returns it again. -/
theorem C4_error_state_overwritten :
    (run_task_failure agentC4 5).status = AgentStatus.error ∧
    (run_task_failure agentC4 5).error_count = agentC4.error_count + 1 ∧
    (on_task_completed rmC4 50 "a1").agent_pool.map AgentInstance.status =
      [AgentStatus.idle] ∧
    (find_best_available_agent (on_task_completed rmC4 50 "a1")).map
      AgentInstance.agent_id = some "a1" := by decide

theorem dictInsert_fresh {α : Type} (d : List (String × α)) (k : String) (v : α)
    (h : (d.any (fun p => p.1 == k)) = false) :
    dictInsert d k v = d ++ [(k, v)] := by
  unfold dictInsert
  rw [if_neg]
  rw [h]
  exact Bool.false_ne_true

theorem taskFutures_eq_dictEntries_aux (outcome : AnalysisTask → Option TaskOutcome) :
    ∀ (ts : List AnalysisTask) (d : List (String × (AnalysisTask × TaskOutcome))),
      (∀ p ∈ d, ∀ t ∈ ts, ¬ t.task_id = p.1) →
      (ts.map AnalysisTask.task_id).Nodup →
      ts.foldl (fun d task =>
        match outcome task with
        | some o => dictInsert d task.task_id (task, o)
        | none => d) d = d ++ dictEntries outcome ts := by
  intro ts
  induction ts with
  | nil =>
    intro d _ _
    simp [dictEntries]
  | cons t ts ih =>
    intro d hdisj hnd
    rw [List.foldl_cons]
    rw [List.map_cons, List.nodup_cons] at hnd
    rcases hnd with ⟨hhead, htail⟩
    rcases ho : outcome t with _ | o
    · simp only [ho]
      rw [ih d (fun p hp u hu => hdisj p hp u (List.mem_cons_of_mem t hu)) htail]
      simp [dictEntries, ho]
    · simp only [ho]
      have hfresh : (d.any (fun p => p.1 == t.task_id)) = false := by
        rw [List.any_eq_false]
        intro p hp
        simp only [beq_iff_eq]
        intro hid
        exact hdisj p hp t (List.mem_cons_self t ts) hid.symm
      rw [dictInsert_fresh d t.task_id (t, o) hfresh]
      have hdisj2 : ∀ p ∈ d ++ [(t.task_id, (t, o))], ∀ u ∈ ts, ¬ u.task_id = p.1 := by
        intro p hp u hu
        rcases List.mem_append.mp hp with hp2 | hp2
        · exact hdisj p hp2 u (List.mem_cons_of_mem t hu)
        · rw [List.mem_singleton] at hp2
          rw [hp2]
          intro hid
          have hid2 : u.task_id = t.task_id := hid
          exact hhead (hid2 ▸ List.mem_map_of_mem AnalysisTask.task_id hu)
      rw [ih (d ++ [(t.task_id, (t, o))]) hdisj2 htail]
      simp [dictEntries, ho]

/-- With unique task ids, the result list of execute_task_batch is the
rendering of one dict entry per assigned task, in submission order. -/
theorem execute_task_batch_eq (outcome : AnalysisTask → Option TaskOutcome)
    (batch : TaskBatch) (hnd : (batch.tasks.map AnalysisTask.task_id).Nodup) :
    execute_task_batch outcome batch =
      (dictEntries outcome batch.tasks).map renderFileResult := by
  unfold execute_task_batch taskFutures
  rw [taskFutures_eq_dictEntries_aux outcome batch.tasks []
    (fun p hp => absurd hp (List.not_mem_nil p)) hnd]
  rw [List.nil_append]

/-- The three counts of a rendered batch: entries, successes, failures. -/
theorem dictEntries_render_counts (outcome : AnalysisTask → Option TaskOutcome) :
    ∀ (ts : List AnalysisTask),
      ((dictEntries outcome ts).map renderFileResult).length =
        ts.countP (fun t => (outcome t).isSome) ∧
      (((dictEntries outcome ts).map renderFileResult).filter (fun r => r.success)).length =
        ts.countP (fun t => isOkOutcome (outcome t)) ∧
      (((dictEntries outcome ts).map renderFileResult).filter (fun r => !r.success)).length =
        ts.countP (fun t => isErrOutcome (outcome t)) := by
  intro ts
  induction ts with
  | nil => simp [dictEntries]
  | cons t ts ih =>
    rcases ih with ⟨ih1, ih2, ih3⟩
    rcases ho : outcome t with _ | o
    · refine ⟨?_, ?_, ?_⟩ <;>
        simp [dictEntries, ho, List.countP_cons, ih1, ih2, ih3, isOkOutcome, isErrOutcome]
    · rcases o with r | e
      · refine ⟨?_, ?_, ?_⟩ <;>
          simp [dictEntries, ho, renderFileResult, List.countP_cons, ih1, ih2, ih3,
            isOkOutcome, isErrOutcome]
      · refine ⟨?_, ?_, ?_⟩ <;>
          simp [dictEntries, ho, renderFileResult, List.countP_cons, ih1, ih2, ih3,
            isOkOutcome, isErrOutcome]

/-- Every rendered result of a batch stems from an assigned task and keeps
its task id. -/
theorem dictEntries_render_ids (outcome : AnalysisTask → Option TaskOutcome) :
    ∀ (ts : List AnalysisTask) (r : FileResult),
      r ∈ (dictEntries outcome ts).map renderFileResult →
      ∃ u ∈ ts, (outcome u).isSome = true ∧ r.task_id = u.task_id := by
  intro ts
  induction ts with
  | nil =>
    intro r hr
    simp [dictEntries] at hr
  | cons t ts ih =>
    intro r hr
    have hcons : dictEntries outcome (t :: ts) =
        match outcome t with
        | some o => (t.task_id, (t, o)) :: dictEntries outcome ts
        | none => dictEntries outcome ts := rfl
    rcases ho : outcome t with _ | o
    · rw [show dictEntries outcome (t :: ts) = dictEntries outcome ts by
        rw [hcons, ho]] at hr
      obtain ⟨u, hu, hs, hid⟩ := ih r hr
      exact ⟨u, List.mem_cons_of_mem t hu, hs, hid⟩
    · rw [show dictEntries outcome (t :: ts) =
          (t.task_id, (t, o)) :: dictEntries outcome ts by
        rw [hcons, ho]] at hr
      rw [List.map_cons, List.mem_cons] at hr
      rcases hr with hr | hr
      · refine ⟨t, List.mem_cons_self t ts, by rw [ho]; rfl, ?_⟩
        rw [hr]
        cases o <;> rfl
      · obtain ⟨u, hu, hs, hid⟩ := ih r hr
        exact ⟨u, List.mem_cons_of_mem t hu, hs, hid⟩

/-- The batching step of the plan loop, written as an explicit pair. -/
theorem executePlanStep_eq (outcome : AnalysisTask → Option TaskOutcome)
    (acc : List FileResult × OrchestrationProgress) (ib : Nat × TaskBatch) :
    executePlanStep outcome acc ib =
      (acc.1 ++ execute_task_batch outcome ib.2,
       { acc.2 with
          current_batch := ib.1 + 1
          completed_tasks := acc.2.completed_tasks +
            ((execute_task_batch outcome ib.2).filter (fun r => r.success)).length
          failed_tasks := acc.2.failed_tasks +
            ((execute_task_batch outcome ib.2).filter (fun r => !r.success)).length }) := rfl

/-- The plan loop only accumulates: its results are the concatenation of
the batch results and the progress fields it does not touch, among them
the state, are preserved. -/
theorem execute_plan_foldl_spec (outcome : AnalysisTask → Option TaskOutcome) :
    ∀ (l : List (Nat × TaskBatch)) (acc : List FileResult) (prog : OrchestrationProgress),
      (l.foldl (executePlanStep outcome) (acc, prog)).1 =
        acc ++ (l.map (fun ib => execute_task_batch outcome ib.2)).flatten ∧
      (l.foldl (executePlanStep outcome) (acc, prog)).2.state = prog.state ∧
      (l.foldl (executePlanStep outcome) (acc, prog)).2.total_tasks = prog.total_tasks ∧
      (l.foldl (executePlanStep outcome) (acc, prog)).2.total_batches = prog.total_batches := by
  intro l
  induction l with
  | nil =>
    intro acc prog
    refine ⟨by simp, rfl, rfl, rfl⟩
  | cons ib l ih =>
    intro acc prog
    rw [List.foldl_cons, executePlanStep_eq]
    rcases ih (acc ++ execute_task_batch outcome ib.2)
      { prog with
          current_batch := ib.1 + 1
          completed_tasks := prog.completed_tasks +
            ((execute_task_batch outcome ib.2).filter (fun r => r.success)).length
          failed_tasks := prog.failed_tasks +
            ((execute_task_batch outcome ib.2).filter (fun r => !r.success)).length }
      with ⟨h1, h2, h3, h4⟩
    refine ⟨?_, ?_, ?_, ?_⟩
    · rw [h1]
      simp [List.append_assoc]
    · rw [h2]
    · rw [h3]
    · rw [h4]

/-- execute_analysis_plan: results are exactly the concatenated batch
results, and the state and totals of the progress record are untouched
by the loop. -/
theorem execute_analysis_plan_spec (outcome : AnalysisTask → Option TaskOutcome)
    (plan : List TaskBatch) (progress : OrchestrationProgress) :
    (execute_analysis_plan outcome plan progress).1 =
      (plan.map (execute_task_batch outcome)).flatten ∧
    (execute_analysis_plan outcome plan progress).2.state = progress.state ∧
    (execute_analysis_plan outcome plan progress).2.total_tasks = progress.total_tasks := by
  unfold execute_analysis_plan
  rcases execute_plan_foldl_spec outcome plan.enum [] progress with ⟨h1, h2, h3, _⟩
  refine ⟨?_, h2, h3⟩
  rw [h1, List.nil_append]
  have hmm : (plan.enum.map (fun ib => execute_task_batch outcome ib.2)) =
      (plan.enum.map Prod.snd).map (execute_task_batch outcome) := by
    rw [List.map_map]
    rfl
  rw [hmm, show plan.enum = List.enumFrom 0 plan from rfl, List.enumFrom_map_snd 0 plan]

/-- execute_orchestration ends in the Completed state, records the plan
size as its total task count and aggregates exactly the concatenated batch
results. -/
theorem execute_orchestration_spec (outcome : AnalysisTask → Option TaskOutcome)
    (plan : List TaskBatch) (p0 : OrchestrationProgress) :
    (execute_orchestration outcome plan p0).2.state = OrchestrationState.completed ∧
    (execute_orchestration outcome plan p0).2.total_tasks =
      ((plan.map TaskBatch.tasks).map List.length).sum ∧
    (execute_orchestration outcome plan p0).1 =
      aggregate_results ((plan.map (execute_task_batch outcome)).flatten) := by
  refine ⟨rfl, ?_, ?_⟩
  · exact (execute_analysis_plan_spec outcome plan _).2.2
  · have h := (execute_analysis_plan_spec outcome plan
      { state := OrchestrationState.executing
        total_tasks := ((plan.map TaskBatch.tasks).map List.length).sum
        completed_tasks := p0.completed_tasks
        failed_tasks := p0.failed_tasks
        current_batch := p0.current_batch
        total_batches := plan.length }).1
    show aggregate_results (execute_analysis_plan outcome plan _).1 = _
    rw [h]

/-- Counts across the whole plan: one result per assigned task, successes
matching delivered results, failures matching raised exceptions. -/
theorem plan_results_counts (outcome : AnalysisTask → Option TaskOutcome) :
    ∀ (plan : List TaskBatch),
      (((plan.map TaskBatch.tasks).flatten).map AnalysisTask.task_id).Nodup →
      ((plan.map (execute_task_batch outcome)).flatten).length =
        ((plan.map TaskBatch.tasks).flatten).countP (fun t => (outcome t).isSome) ∧
      (((plan.map (execute_task_batch outcome)).flatten).filter (fun r => r.success)).length =
        ((plan.map TaskBatch.tasks).flatten).countP (fun t => isOkOutcome (outcome t)) ∧
      (((plan.map (execute_task_batch outcome)).flatten).filter (fun r => !r.success)).length =
        ((plan.map TaskBatch.tasks).flatten).countP (fun t => isErrOutcome (outcome t)) := by
  intro plan
  induction plan with
  | nil =>
    intro _
    simp
  | cons b plan ih =>
    intro hnd
    simp only [List.map_cons, List.flatten_cons, List.map_append] at hnd ⊢
    rcases List.nodup_append.mp hnd with ⟨hnd1, hnd2, _⟩
    rcases ih hnd2 with ⟨ih1, ih2, ih3⟩
    rcases dictEntries_render_counts outcome b.tasks with ⟨c1, c2, c3⟩
    rw [execute_task_batch_eq outcome b hnd1]
    refine ⟨?_, ?_, ?_⟩
    · rw [List.length_append, List.countP_append, c1, ih1]
    · rw [List.filter_append, List.length_append, List.countP_append, c2, ih2]
    · rw [List.filter_append, List.length_append, List.countP_append, c3, ih3]

/-- Provenance across the whole plan: every result entry keeps the id of an
assigned task. -/
theorem plan_results_ids (outcome : AnalysisTask → Option TaskOutcome) :
    ∀ (plan : List TaskBatch) (r : FileResult),
      (((plan.map TaskBatch.tasks).flatten).map AnalysisTask.task_id).Nodup →
      r ∈ (plan.map (execute_task_batch outcome)).flatten →
      ∃ u ∈ (plan.map TaskBatch.tasks).flatten,
        (outcome u).isSome = true ∧ r.task_id = u.task_id := by
  intro plan
  induction plan with
  | nil =>
    intro r _ hr
    simp at hr
  | cons b plan ih =>
    intro r hnd hr
    simp only [List.map_cons, List.flatten_cons, List.map_append] at hnd hr ⊢
    rcases List.nodup_append.mp hnd with ⟨hnd1, hnd2, _⟩
    rcases List.mem_append.mp hr with hr | hr
    · rw [execute_task_batch_eq outcome b hnd1] at hr
      obtain ⟨u, hu, hs, hid⟩ := dictEntries_render_ids outcome b.tasks r hr
      exact ⟨u, List.mem_append_left _ hu, hs, hid⟩
    · obtain ⟨u, hu, hs, hid⟩ := ih r hnd2 hr
      exact ⟨u, List.mem_append_right _ hu, hs, hid⟩

/-- Successes and failures partition the assigned tasks. -/
theorem countP_ok_add_err (outcome : AnalysisTask → Option TaskOutcome) :
    ∀ (ts : List AnalysisTask),
      ts.countP (fun t => isOkOutcome (outcome t)) +
        ts.countP (fun t => isErrOutcome (outcome t)) =
        ts.countP (fun t => (outcome t).isSome) := by
  intro ts
  induction ts with
  | nil => simp
  | cons t ts ih =>
    rw [List.countP_cons, List.countP_cons, List.countP_cons]
    rcases ho : outcome t with _ | o
    · simp only [show isOkOutcome none = false from rfl, show isErrOutcome none = false from rfl,
        Option.isSome_none, Bool.false_eq_true, if_false]
      omega
    · rcases o with r | e
      · simp only [show isOkOutcome (some (TaskOutcome.ok r)) = true from rfl,
          show isErrOutcome (some (TaskOutcome.ok r)) = false from rfl,
          Option.isSome_some, Bool.false_eq_true, if_false, if_true]
        omega
      · simp only [show isOkOutcome (some (TaskOutcome.err e)) = false from rfl,
          show isErrOutcome (some (TaskOutcome.err e)) = true from rfl,
          Option.isSome_some, Bool.false_eq_true, if_false, if_true]
        omega

/-- An unassigned member makes the assigned count strictly smaller than the
total. -/
theorem countP_lt_length_of_none (outcome : AnalysisTask → Option TaskOutcome) :
    ∀ (ts : List AnalysisTask) (t : AnalysisTask),
      t ∈ ts → outcome t = none →
      ts.countP (fun t => (outcome t).isSome) < ts.length := by
  intro ts
  induction ts with
  | nil =>
    intro t ht
    exact absurd ht (List.not_mem_nil t)
  | cons u ts ih =>
    intro t ht hnone
    rw [List.countP_cons, List.length_cons]
    rcases List.mem_cons.mp ht with h | h
    · rw [h] at hnone
      rw [hnone]
      have hle := List.countP_le_length (p := fun t => (outcome t).isSome) (l := ts)
      simp only [Option.isSome_none, Bool.false_eq_true, if_false]
      omega
    · have hlt := ih t h hnone
      have hone : (if (outcome u).isSome = true then 1 else 0) ≤ 1 := by
        by_cases hc : (outcome u).isSome = true <;> simp [hc]
      omega

/-- C5: the cancellation claim fails in the code. cancel_orchestration does
set the stored run to Cancelled and reports it, but the batch loop reads no
cancellation information: its result list is the same whatever progress
record it starts from, a run whose progress is already Cancelled still
executes all three batches of a three-batch plan, and execute_orchestration
unconditionally overwrites the final state to Completed. -/
theorem C5_cancellation_ignored :
    (cancel_orchestration [("r1", progInit)] "r1").1 = true ∧
    (cancel_orchestration [("r1", progInit)] "r1").2 =
      [("r1", { progInit with state := OrchestrationState.cancelled })] ∧
    (∀ (outcome : AnalysisTask → Option TaskOutcome) (plan : List TaskBatch)
        (p q : OrchestrationProgress),
      (execute_analysis_plan outcome plan p).1 = (execute_analysis_plan outcome plan q).1) ∧
    (execute_analysis_plan okOutcome planC5 progCancelled).1.length = 3 ∧
    (execute_analysis_plan okOutcome planC5 progCancelled).2.current_batch = 3 ∧
    (execute_orchestration okOutcome planC5 progCancelled).2.state =
      OrchestrationState.completed := by
  refine ⟨by decide, by decide, ?_, by decide, by decide, rfl⟩
  intro outcome plan p q
  rw [(execute_analysis_plan_spec outcome plan p).1,
    (execute_analysis_plan_spec outcome plan q).1]

/-- C6: in a run where every task receives a Future and exactly one of them
raises, the failure stays a marked entry of the result set, the run covers
the whole plan and ends Completed, and the report counts one failed task
and all the others analyzed. -/
theorem C6_partial_failure (outcome : AnalysisTask → Option TaskOutcome)
    (plan : List TaskBatch) (p0 : OrchestrationProgress)
    (hnd : (((plan.map TaskBatch.tasks).flatten).map AnalysisTask.task_id).Nodup)
    (hall : ∀ t ∈ (plan.map TaskBatch.tasks).flatten, (outcome t).isSome = true)
    (herr : ((plan.map TaskBatch.tasks).flatten).countP
      (fun t => isErrOutcome (outcome t)) = 1) :
    (execute_orchestration outcome plan p0).1.total_files =
      ((plan.map TaskBatch.tasks).flatten).length ∧
    (execute_orchestration outcome plan p0).1.total_files_analyzed =
      ((plan.map TaskBatch.tasks).flatten).length - 1 ∧
    (execute_orchestration outcome plan p0).1.failed_analyses = 1 ∧
    (execute_orchestration outcome plan p0).2.state = OrchestrationState.completed := by
  obtain ⟨hstate, _, hres⟩ := execute_orchestration_spec outcome plan p0
  rcases plan_results_counts outcome plan hnd with ⟨hlen, hok, herrc⟩
  have hAll : ((plan.map TaskBatch.tasks).flatten).countP (fun t => (outcome t).isSome) =
      ((plan.map TaskBatch.tasks).flatten).length := List.countP_eq_length.mpr hall
  have hsum := countP_ok_add_err outcome ((plan.map TaskBatch.tasks).flatten)
  refine ⟨?_, ?_, ?_, hstate⟩
  · rw [hres]
    show ((plan.map (execute_task_batch outcome)).flatten).length = _
    rw [hlen, hAll]
  · rw [hres]
    show (((plan.map (execute_task_batch outcome)).flatten).filter
      (fun r => r.success)).length = _
    rw [hok]
    omega
  · rw [hres]
    show (((plan.map (execute_task_batch outcome)).flatten).filter
      (fun r => !r.success)).length = _
    rw [herrc]
    exact herr

/-- Witness for C6: ten tasks, task #5 raising, yield a Completed run with
nine analyzed and one failed. -/
theorem C6_partial_failure_witness :
    ((planC6.map TaskBatch.tasks).flatten).length = 10 ∧
    ((execute_orchestration outcomeC6 planC6 progInit).1.total_files_analyzed =
      ((planC6.map TaskBatch.tasks).flatten).length - 1 ∧
     (execute_orchestration outcomeC6 planC6 progInit).1.failed_analyses = 1 ∧
     (execute_orchestration outcomeC6 planC6 progInit).2.state =
       OrchestrationState.completed) :=
  ⟨by decide,
   (C6_partial_failure outcomeC6 planC6 progInit (by decide) (by decide) (by decide)).2⟩

/-- C10: a task whose assignment returns no Future leaves no trace in the
results: no aggregated file result bears its id, the analyzed and failed
counts sum to the assigned-task count, that count is strictly below the
plan size, yet the progress total still counts the task. -/
theorem C10_unassigned_task_excluded (outcome : AnalysisTask → Option TaskOutcome)
    (plan : List TaskBatch) (p0 : OrchestrationProgress) (t : AnalysisTask)
    (hnd : (((plan.map TaskBatch.tasks).flatten).map AnalysisTask.task_id).Nodup)
    (ht : t ∈ (plan.map TaskBatch.tasks).flatten)
    (hnone : outcome t = none) :
    (∀ r ∈ (execute_orchestration outcome plan p0).1.file_results,
      ¬ r.task_id = t.task_id) ∧
    (execute_orchestration outcome plan p0).1.total_files_analyzed +
        (execute_orchestration outcome plan p0).1.failed_analyses =
      ((plan.map TaskBatch.tasks).flatten).countP (fun u => (outcome u).isSome) ∧
    ((plan.map TaskBatch.tasks).flatten).countP (fun u => (outcome u).isSome) <
      ((plan.map TaskBatch.tasks).flatten).length ∧
    (execute_orchestration outcome plan p0).2.total_tasks =
      ((plan.map TaskBatch.tasks).flatten).length := by
  obtain ⟨_, htot, hres⟩ := execute_orchestration_spec outcome plan p0
  rcases plan_results_counts outcome plan hnd with ⟨hlen, hok, herrc⟩
  refine ⟨?_, ?_, ?_, ?_⟩
  · intro r hr hid
    rw [hres] at hr
    have hr2 : r ∈ (plan.map (execute_task_batch outcome)).flatten := hr
    obtain ⟨u, hu, hs, hid2⟩ := plan_results_ids outcome plan r hnd hr2
    have hut : u = t := List.inj_on_of_nodup_map hnd hu ht (by rw [← hid2, hid])
    rw [hut, hnone] at hs
    simp at hs
  · rw [hres]
    show (((plan.map (execute_task_batch outcome)).flatten).filter
        (fun r => r.success)).length +
      (((plan.map (execute_task_batch outcome)).flatten).filter
        (fun r => !r.success)).length = _
    rw [hok, herrc]
    exact countP_ok_add_err outcome _
  · exact countP_lt_length_of_none outcome _ t ht hnone
  · rw [htot, List.length_flatten]

/-- Witness for C10: the queued task w2 is absent from the report although
the plan counts three tasks and only two produce results. -/
theorem C10_unassigned_task_excluded_witness :
    (∀ r ∈ (execute_orchestration outcomeC10 planC10 progInit).1.file_results,
      ¬ r.task_id = (mkTaskC "w2" "g2.py").task_id) ∧
    (execute_orchestration outcomeC10 planC10 progInit).1.total_files_analyzed +
        (execute_orchestration outcomeC10 planC10 progInit).1.failed_analyses =
      ((planC10.map TaskBatch.tasks).flatten).countP (fun u => (outcomeC10 u).isSome) ∧
    ((planC10.map TaskBatch.tasks).flatten).countP (fun u => (outcomeC10 u).isSome) <
      ((planC10.map TaskBatch.tasks).flatten).length ∧
    (execute_orchestration outcomeC10 planC10 progInit).2.total_tasks =
      ((planC10.map TaskBatch.tasks).flatten).length :=
  C10_unassigned_task_excluded outcomeC10 planC10 progInit (mkTaskC "w2" "g2.py")
    (by decide) (by decide) (by decide)

